import Mathlib

/-!
Verification of the state/config manager of the `vpn-project` repository
(`internal/vpnserver/manager.go`).  The Go functions are shallowly embedded
as executable Lean definitions; Go strings are modelled as Lean strings
(sequences of unicode scalar values), Go `int` as `Int`, Go maps as
association lists, and the filesystem as an explicit state.  Standard
library helpers used by the code (`strings.*`, `net.SplitHostPort`,
`net.ParseIP`, `strconv.Atoi`, `path/filepath`) are embedded following the
Go standard library sources; `strings.ToLower` and `strings.TrimSpace` are
embedded on their ASCII/Latin-1 behaviour (the full Unicode tables are not
reproduced; no claim depends on characters outside that range).
-/

/-! ## Go string helpers -/

/-- `unicode.IsSpace` restricted to the Latin-1 range, as used by
`strings.TrimSpace`: space, tab, newline, vertical tab, form feed,
carriage return, NEL and NBSP. -/
def goIsSpace (c : Char) : Bool :=
  c == ' ' || c == '\t' || c == '\n' || c == Char.ofNat 0x0B ||
  c == Char.ofNat 0x0C || c == '\r' || c == Char.ofNat 0x85 || c == Char.ofNat 0xA0

/-- `strings.TrimSpace` on a character list: drop leading and trailing
whitespace. -/
def goTrimSpaceList (l : List Char) : List Char :=
  ((l.dropWhile goIsSpace).reverse.dropWhile goIsSpace).reverse

/-- `strings.TrimSpace`. -/
def goTrimSpace (s : String) : String :=
  String.mk (goTrimSpaceList s.data)

/-- `strings.ToLower` on one character (ASCII range; Go additionally lowers
non-ASCII letters by the Unicode tables, which no claim exercises). -/
def goToLowerChar (c : Char) : Char :=
  if 'A' ≤ c && c ≤ 'Z' then Char.ofNat (c.toNat + 32) else c

/-- `strings.ToLower`. -/
def goToLower (s : String) : String :=
  String.mk (s.data.map goToLowerChar)

/-! ## sanitizeClientID / allocateClientIDLocked (manager.go:697-722) -/

/-- The character class of the regexp `[a-z0-9._-]` from
`var clientIDRe = regexp.MustCompile(`. -/
def allowedIDChar (c : Char) : Bool :=
  ('a' ≤ c && c ≤ 'z') || ('0' ≤ c && c ≤ '9') || c == '.' || c == '_' || c == '-'

/-- Scanner for `clientIDRe.ReplaceAllString(n, "-")`; the flag records
whether the scanner is inside a run of disallowed characters (for which a
single `-` has already been emitted). -/
def replaceRunsAux : Bool → List Char → List Char
  | _, [] => []
  | inRun, c :: rest =>
    if allowedIDChar c then c :: replaceRunsAux false rest
    else if inRun then replaceRunsAux true rest
    else '-' :: replaceRunsAux true rest

/-- `clientIDRe.ReplaceAllString(n, "-")`: every maximal run of characters
outside `[a-z0-9._-]` is replaced by a single `-`. -/
def replaceDisallowedRuns (l : List Char) : List Char :=
  replaceRunsAux false l

/-- Membership in the cutset of `strings.Trim(n, "-_.")`. -/
def trimCutChar (c : Char) : Bool :=
  c == '-' || c == '_' || c == '.'

/-- `strings.Trim(n, "-_.")` on a character list. -/
def trimCutsetList (l : List Char) : List Char :=
  ((l.dropWhile trimCutChar).reverse.dropWhile trimCutChar).reverse

/-- `sanitizeClientID` (manager.go:711-722). -/
def sanitizeClientID (name : String) : String :=
  let n0 := goToLower (goTrimSpace name)
  let n1 := if n0 = "" then "client" else n0
  let n2 := String.mk (replaceDisallowedRuns n1.data)
  let n3 := String.mk (trimCutsetList n2.data)
  if n3 = "" then "client" else n3

/-- One client record (`type Client struct`, manager.go:28-35).
`createdAt` models `time.Time` as an integer instant whose zero value is
Go's zero time (`IsZero`). -/
structure Client where
  id : String
  name : String
  uuid : String
  address : String
  configPath : String
  createdAt : Int
deriving Repr, DecidableEq

/-- The in-memory client map `map[string]Client`, as an association list
with unique keys. -/
def ClientMap := List (String × Client)

instance : DecidableEq ClientMap := by
  unfold ClientMap; infer_instance

/-- Go map lookup `m[k]` on an association list. -/
def assocFind {α : Type} : List (String × α) → String → Option α
  | [], _ => none
  | (k2, v) :: rest, k => if k2 = k then some v else assocFind rest k

/-- Go map assignment `m[k] = v` on an association list: replace the
binding if the key is present, append it otherwise. -/
def assocInsert {α : Type} : List (String × α) → String → α → List (String × α)
  | [], k, v => [(k, v)]
  | (k2, v2) :: rest, k, v =>
    if k2 = k then (k2, v) :: rest else (k2, v2) :: assocInsert rest k v

/-- The collision loop `for i := 2; i < 10000; i++` of
`allocateClientIDLocked`, falling back to a timestamp suffix
(`now` is `time.Now().Unix()`). -/
def allocSuffixSearch (base : String) (clients : ClientMap) (now : Int) (i : Nat) : String :=
  if _h : i < 10000 then
    let candidate := base ++ "-" ++ toString i
    match assocFind clients candidate with
    | none => candidate
    | some _ => allocSuffixSearch base clients now (i + 1)
  else
    base ++ "-" ++ toString now
termination_by 10000 - i

/-- `allocateClientIDLocked` (manager.go:697-709). -/
def allocateClientIDLocked (name : String) (clients : ClientMap) (now : Int) : String :=
  let base := sanitizeClientID name
  match assocFind clients base with
  | none => base
  | some _ => allocSuffixSearch base clients now 2

/-! ## resolveEndpointHostPort (manager.go:661-678) -/

/-- Index of the last occurrence of a character. -/
def lastIdxOf (l : List Char) (c : Char) : Option Nat :=
  match l.reverse.findIdx? (· == c) with
  | none => none
  | some j => some (l.length - 1 - j)

/-- `net.SplitHostPort` (Go `net/ipsock.go`): `none` models a non-nil
error.  The port starts after the last colon; a leading `[` starts a
bracketed host that must end just before that colon; stray colons or
brackets are errors. -/
def goSplitHostPort (s : String) : Option (String × String) :=
  let l := s.data
  match lastIdxOf l ':' with
  | none => none
  | some i =>
    if l.head? = some '[' then
      match l.findIdx? (· == ']') with
      | none => none
      | some e =>
        if e + 1 = l.length then
          none
        else if e + 1 = i then
          if (l.drop 1).contains '[' then none
          else if (l.drop (e + 1)).contains ']' then none
          else some (String.mk ((l.drop 1).take (e - 1)), String.mk (l.drop (i + 1)))
        else none
    else
      let host := l.take i
      if host.contains ':' then none
      else if l.contains '[' then none
      else if l.contains ']' then none
      else some (String.mk host, String.mk (l.drop (i + 1)))

/-- Numeric value of a list of decimal digit characters. -/
def decDigitsVal (l : List Char) : Nat :=
  l.foldl (fun a c => a * 10 + (c.toNat - 48)) 0

/-- `strconv.Atoi`: optional sign followed by at least one decimal digit;
any other character, the empty string, or a value outside the 64-bit
range is an error. -/
def goAtoi (s : String) : Option Int :=
  let l := s.data
  match l with
  | [] => none
  | _ =>
    let signed : Bool × List Char :=
      match l with
      | '-' :: rest => (true, rest)
      | '+' :: rest => (false, rest)
      | _ => (false, l)
    let neg := signed.1
    let digits := signed.2
    if digits = [] then none
    else if digits.all (fun c => '0' ≤ c && c ≤ '9') then
      let v0 : Int := Int.ofNat (decDigitsVal digits)
      let v : Int := if neg then -v0 else v0
      if v < -(2 ^ 63) || 2 ^ 63 - 1 < v then none else some v
    else none

/-- `resolveEndpointHostPort` (manager.go:661-678). -/
def resolveEndpointHostPort (rawHost : String) (fallbackPort : Int) : String × Int :=
  let host := goTrimSpace rawHost
  if host = "" then ("127.0.0.1", fallbackPort)
  else
    match goSplitHostPort host with
    | some (parsedHost, parsedPort) =>
      match goAtoi parsedPort with
      | some p => if 0 < p then (parsedHost, p) else (parsedHost, fallbackPort)
      | none => (parsedHost, fallbackPort)
    | none => (host, fallbackPort)

/-- C2: `resolveEndpointHostPort` is a pure total function (it is defined
as a total Lean function on all string inputs and fallback ports);
`("vpn.example.com:8443", 443)` resolves to host `"vpn.example.com"` and
port `8443`; `("", 443)` resolves to `"127.0.0.1"` and `443`; and every
input that trims to a non-empty string carrying no explicit port (i.e. on
which `net.SplitHostPort` fails) resolves to the whole trimmed string as
host with the fallback port. -/
theorem resolveEndpointHostPort_claim :
    resolveEndpointHostPort "vpn.example.com:8443" 443 = ("vpn.example.com", 8443) ∧
    resolveEndpointHostPort "" 443 = ("127.0.0.1", 443) ∧
    ∀ (s : String) (fb : Int), goTrimSpace s ≠ "" →
      goSplitHostPort (goTrimSpace s) = none →
      resolveEndpointHostPort s fb = (goTrimSpace s, fb) := by
  refine ⟨by decide, by decide, ?_⟩
  intro s fb hne hsplit
  unfold resolveEndpointHostPort
  simp only [hne, if_false, hsplit]

/-- Witness for C2: the hypotheses of the universally quantified clause are
satisfiable, e.g. by a bare domain name. -/
theorem resolveEndpointHostPort_claim_witness :
    resolveEndpointHostPort "vpn.example.com" 7 = (goTrimSpace "vpn.example.com", 7) :=
  resolveEndpointHostPort_claim.2.2 "vpn.example.com" 7 (by decide) (by decide)

/-! ## Claim C1: id sanitization and allocation -/

theorem replaceRunsAux_chars :
    ∀ (l : List Char) (b : Bool) (c : Char), c ∈ replaceRunsAux b l → allowedIDChar c = true := by
  intro l
  induction l with
  | nil => intro b c h; simp [replaceRunsAux] at h
  | cons a t ih =>
    intro b c h
    unfold replaceRunsAux at h
    by_cases ha : allowedIDChar a = true
    · rw [if_pos ha] at h
      rcases List.mem_cons.mp h with h1 | h1
      · rwa [h1]
      · exact ih false c h1
    · rw [if_neg ha] at h
      cases b with
      | true => exact ih true c (by simpa using h)
      | false =>
        simp only [Bool.false_eq_true, if_false] at h
        rcases List.mem_cons.mp h with h1 | h1
        · rw [h1]; decide
        · exact ih true c h1

theorem trimCutsetList_subset (l : List Char) (c : Char) (h : c ∈ trimCutsetList l) : c ∈ l := by
  unfold trimCutsetList at h
  rw [List.mem_reverse] at h
  have h2 := (List.dropWhile_sublist _).subset h
  rw [List.mem_reverse] at h2
  exact (List.dropWhile_sublist _).subset h2

theorem sanitizeClientID_ok (name : String) :
    sanitizeClientID name ≠ "" ∧ ∀ c ∈ (sanitizeClientID name).data, allowedIDChar c = true := by
  have hgen : ∀ (s : String), (∀ c ∈ s.data, allowedIDChar c = true) →
      (if s = "" then "client" else s) ≠ "" ∧
      ∀ c ∈ (if s = "" then "client" else s).data, allowedIDChar c = true := by
    intro s hs
    by_cases h : s = ""
    · rw [if_pos h]
      exact ⟨by decide, by decide⟩
    · rw [if_neg h]
      exact ⟨h, hs⟩
  exact hgen
    (String.mk (trimCutsetList (replaceDisallowedRuns
      (if goToLower (goTrimSpace name) = "" then "client" else goToLower (goTrimSpace name)).data)))
    (fun c hc => replaceRunsAux_chars _ false c (trimCutsetList_subset _ c hc))

theorem assocFind_insert_self {α : Type} (m : List (String × α)) (k : String) (v : α) :
    assocFind (assocInsert m k v) k = some v := by
  induction m with
  | nil => simp [assocInsert, assocFind]
  | cons a t ih =>
    obtain ⟨k2, v2⟩ := a
    unfold assocInsert
    by_cases h : k2 = k
    · rw [if_pos h]; simp [assocFind, h]
    · rw [if_neg h]; simp only [assocFind, h, if_false]; exact ih

theorem assocFind_insert_ne {α : Type} (m : List (String × α)) {k k2 : String} (v : α)
    (h : k2 ≠ k) : assocFind (assocInsert m k v) k2 = assocFind m k2 := by
  induction m with
  | nil =>
    simp only [assocInsert, assocFind]
    rw [if_neg (fun he => h he.symm)]
  | cons a t ih =>
    obtain ⟨k3, v3⟩ := a
    unfold assocInsert
    by_cases h3 : k3 = k
    · rw [if_pos h3]
      have : k3 ≠ k2 := by rw [h3]; exact fun he => h he.symm
      simp [assocFind, this]
    · rw [if_neg h3]
      by_cases h32 : k3 = k2
      · simp [assocFind, h32]
      · simp only [assocFind, h32, if_false]; exact ih

theorem assocFind_insert_of_found {α : Type} (m : List (String × α)) {k2 : String}
    (k : String) (v : α) (h : assocFind m k2 ≠ none) :
    assocFind (assocInsert m k v) k2 ≠ none := by
  by_cases he : k2 = k
  · rw [he, assocFind_insert_self]; exact fun h2 => Option.noConfusion h2
  · rw [assocFind_insert_ne m v he]; exact h

theorem allocSuffixSearch_exhausted (base : String) (m : ClientMap) (now : Int) :
    ∀ i, (∀ k, i ≤ k → k < 10000 → assocFind m (base ++ "-" ++ toString k) ≠ none) →
      allocSuffixSearch base m now i = base ++ "-" ++ toString now := by
  have main : ∀ (fuel i : Nat), 10000 - i ≤ fuel →
      (∀ k, i ≤ k → k < 10000 → assocFind m (base ++ "-" ++ toString k) ≠ none) →
      allocSuffixSearch base m now i = base ++ "-" ++ toString now := by
    intro fuel
    induction fuel with
    | zero =>
      intro i hle _h
      have hge : ¬ i < 10000 := by omega
      unfold allocSuffixSearch
      rw [dif_neg hge]
    | succ n ih =>
      intro i hle h
      unfold allocSuffixSearch
      by_cases hi : i < 10000
      · rw [dif_pos hi]
        cases hfind : assocFind m (base ++ "-" ++ toString i) with
        | none => exact absurd hfind (h i le_rfl hi)
        | some _ =>
          simp only [hfind]
          exact ih (i + 1) (by omega) (fun k hk1 hk2 => h k (by omega) hk2)
      · rw [dif_neg hi]
  exact fun i => main 10000 i (by omega)

theorem allocSuffixSearch_finds_free (base : String) (m : ClientMap) (now : Int) :
    ∀ i, (∃ k, i ≤ k ∧ k < 10000 ∧ assocFind m (base ++ "-" ++ toString k) = none) →
      ∃ k, i ≤ k ∧ k < 10000 ∧ allocSuffixSearch base m now i = base ++ "-" ++ toString k ∧
        assocFind m (base ++ "-" ++ toString k) = none := by
  have main : ∀ (fuel i : Nat), 10000 - i ≤ fuel →
      (∃ k, i ≤ k ∧ k < 10000 ∧ assocFind m (base ++ "-" ++ toString k) = none) →
      ∃ k, i ≤ k ∧ k < 10000 ∧ allocSuffixSearch base m now i = base ++ "-" ++ toString k ∧
        assocFind m (base ++ "-" ++ toString k) = none := by
    intro fuel
    induction fuel with
    | zero =>
      intro i hle h
      obtain ⟨k, hk1, hk2, _⟩ := h
      omega
    | succ n ih =>
      intro i hle h
      obtain ⟨k, hk1, hk2, hkfree⟩ := h
      have hi : i < 10000 := by omega
      unfold allocSuffixSearch
      rw [dif_pos hi]
      cases hfind : assocFind m (base ++ "-" ++ toString i) with
      | none =>
        refine ⟨i, le_rfl, hi, ?_, hfind⟩
        simp only [hfind]
      | some _ =>
        simp only [hfind]
        have hki : k ≠ i := by
          intro he; rw [he, hfind] at hkfree; exact Option.noConfusion hkfree
        have hb : 10000 - (i + 1) ≤ n := by omega
        have hex : ∃ k, i + 1 ≤ k ∧ k < 10000 ∧
            assocFind m (base ++ "-" ++ toString k) = none :=
          ⟨k, by omega, hk2, hkfree⟩
        obtain ⟨k2, h1, h2, h3, h4⟩ := ih (i + 1) hb hex
        exact ⟨k2, by omega, h2, h3, h4⟩
  exact fun i => main 10000 i (by omega)

/-- A client record with all-zero fields, used as an inhabitant for
concrete instantiations. -/
def mkClient : Client :=
  ⟨"", "", "", "", "", 0⟩

/-- C1 (amended): (1) for every name the sanitized id is non-empty and
drawn from `[a-z0-9._-]` (hence lowercase); (2) two successive
allocations from names that sanitize to the same base, the second after
the first id was inserted, yield two distinct ids — the second carrying a
`-2`, `-3`, … suffix — *provided* some candidate `base-k` (2 ≤ k < 10000)
is still unused after the first insertion; (3) beyond that bound the
second id is the timestamp-suffixed `base-<unix time>`, which is not
checked for freshness and can collide with the first id (see the
counterexample). -/
theorem clientID_allocation_claim :
    (∀ name : String, sanitizeClientID name ≠ "" ∧
      ∀ c ∈ (sanitizeClientID name).data, allowedIDChar c = true) ∧
    (∀ (name1 name2 : String) (m : ClientMap) (c : Client) (now1 now2 : Int),
      sanitizeClientID name2 = sanitizeClientID name1 →
      (∃ k, 2 ≤ k ∧ k < 10000 ∧
        assocFind (assocInsert m (allocateClientIDLocked name1 m now1) c)
          (sanitizeClientID name1 ++ "-" ++ toString k) = none) →
      allocateClientIDLocked name2 (assocInsert m (allocateClientIDLocked name1 m now1) c) now2
          ≠ allocateClientIDLocked name1 m now1 ∧
      ∃ k, 2 ≤ k ∧ k < 10000 ∧
        allocateClientIDLocked name2 (assocInsert m (allocateClientIDLocked name1 m now1) c) now2
          = sanitizeClientID name1 ++ "-" ++ toString k) ∧
    (∀ (name : String) (m : ClientMap) (now : Int),
      assocFind m (sanitizeClientID name) ≠ none →
      (∀ k, 2 ≤ k → k < 10000 →
        assocFind m (sanitizeClientID name ++ "-" ++ toString k) ≠ none) →
      allocateClientIDLocked name m now = sanitizeClientID name ++ "-" ++ toString now) := by
  refine ⟨sanitizeClientID_ok, ?_, ?_⟩
  · intro name1 name2 m c now1 now2 hsan hex
    have hid1eq : allocateClientIDLocked name1 m now1 =
        (match assocFind m (sanitizeClientID name1) with
         | none => sanitizeClientID name1
         | some _ => allocSuffixSearch (sanitizeClientID name1) m now1 2) := rfl
    have hocc : assocFind
        (assocInsert m (allocateClientIDLocked name1 m now1) c)
        (sanitizeClientID name1) ≠ none := by
      cases hb : assocFind m (sanitizeClientID name1) with
      | none =>
        have hbase : allocateClientIDLocked name1 m now1 = sanitizeClientID name1 := by
          rw [hid1eq, hb]
        rw [hbase, assocFind_insert_self]
        exact fun h => Option.noConfusion h
      | some v =>
        apply assocFind_insert_of_found
        rw [hb]
        exact fun h => Option.noConfusion h
    have halloc2 : allocateClientIDLocked name2
        (assocInsert m (allocateClientIDLocked name1 m now1) c) now2 =
        allocSuffixSearch (sanitizeClientID name1)
          (assocInsert m (allocateClientIDLocked name1 m now1) c) now2 2 := by
      have h2 : allocateClientIDLocked name2
          (assocInsert m (allocateClientIDLocked name1 m now1) c) now2 =
          (match assocFind (assocInsert m (allocateClientIDLocked name1 m now1) c)
              (sanitizeClientID name2) with
           | none => sanitizeClientID name2
           | some _ => allocSuffixSearch (sanitizeClientID name2)
               (assocInsert m (allocateClientIDLocked name1 m now1) c) now2 2) := rfl
      cases hb2 : assocFind (assocInsert m (allocateClientIDLocked name1 m now1) c)
          (sanitizeClientID name1) with
      | none => exact absurd hb2 hocc
      | some v => rw [h2, hsan, hb2]
    obtain ⟨k0, hk1, hk2, heq, hfree⟩ :=
      allocSuffixSearch_finds_free (sanitizeClientID name1)
        (assocInsert m (allocateClientIDLocked name1 m now1) c) now2 2 hex
    have hid1mem : assocFind (assocInsert m (allocateClientIDLocked name1 m now1) c)
        (allocateClientIDLocked name1 m now1) = some c := assocFind_insert_self _ _ _
    constructor
    · rw [halloc2, heq]
      intro hcontr
      rw [hcontr, hid1mem] at hfree
      exact Option.noConfusion hfree
    · exact ⟨k0, hk1, hk2, by rw [halloc2, heq]⟩
  · intro name m now hocc hfull
    cases hb : assocFind m (sanitizeClientID name) with
    | none => exact absurd hb hocc
    | some v =>
      have : allocateClientIDLocked name m now =
          allocSuffixSearch (sanitizeClientID name) m now 2 := by
        simp only [allocateClientIDLocked, hb]
      rw [this]
      exact allocSuffixSearch_exhausted _ _ _ 2 hfull

/-- Witness for C1: at concrete inputs, the hypotheses of clauses (1) and
(2) of the amended claim are satisfiable and produce two distinct ids. -/
theorem clientID_allocation_claim_witness :
    sanitizeClientID "Alice Smith" ≠ "" ∧
    allocateClientIDLocked "alice smith"
        (assocInsert [] (allocateClientIDLocked "Alice Smith" [] 5) mkClient) 6
      ≠ allocateClientIDLocked "Alice Smith" [] 5 :=
  ⟨(clientID_allocation_claim.1 "Alice Smith").1,
   (clientID_allocation_claim.2.1 "Alice Smith" "alice smith" [] mkClient 5 6 (by decide)
      ⟨2, by decide, by decide, by decide⟩).1⟩

/-- The fully saturated map refuting the unconditional distinctness of
successive allocations: the base id and every `-2` … `-9999` suffix are
taken. -/
def cexAllocMap : ClientMap :=
  ("client", mkClient) :: (List.range' 2 9998).map (fun k => ("client-" ++ toString k, mkClient))

theorem assocFind_map_tag_ne_none (v : Client) (l : List Nat) (key : String)
    (h : ∃ j ∈ l, key = "client-" ++ toString j) :
    assocFind (l.map fun k => ("client-" ++ toString k, v)) key ≠ none := by
  induction l with
  | nil => simp at h
  | cons a t ih =>
    obtain ⟨j, hj, hkey⟩ := h
    simp only [List.map_cons, assocFind]
    by_cases he : "client-" ++ toString a = key
    · rw [if_pos he]; exact fun h2 => Option.noConfusion h2
    · rw [if_neg he]
      apply ih
      rcases List.mem_cons.mp hj with h1 | h1
      · exact absurd (by rw [hkey, h1]) he
      · exact ⟨j, h1, hkey⟩

theorem assocFind_cons {α : Type} (k2 : String) (v : α) (rest : List (String × α)) (k : String) :
    assocFind ((k2, v) :: rest) k = if k2 = k then some v else assocFind rest k := rfl

theorem cexAllocMap_full (k : Nat) (h2 : 2 ≤ k) (h4 : k < 10000) :
    assocFind cexAllocMap ("client-" ++ toString k) ≠ none := by
  unfold cexAllocMap
  rw [assocFind_cons]
  by_cases he : ("client" : String) = "client-" ++ toString k
  · rw [if_pos he]; exact fun h => Option.noConfusion h
  · rw [if_neg he]
    apply assocFind_map_tag_ne_none
    refine ⟨k, ?_, rfl⟩
    rw [List.mem_range']
    exact ⟨k - 2, by omega, by omega⟩

theorem cexAllocMap_base : assocFind cexAllocMap "client" = some mkClient := rfl

/-- Counterexample for C1 as frozen: when the whole `-2` … `-9999` range
is occupied and both allocations happen within the same clock second, the
second allocation returns the very same timestamp-suffixed id that the
first allocation returned and inserted — the two ids are equal, not
distinct. -/
theorem clientID_allocation_counterexample :
    sanitizeClientID "Client" = sanitizeClientID "client" ∧
    allocateClientIDLocked "Client"
        (assocInsert cexAllocMap (allocateClientIDLocked "client" cexAllocMap 1700000000) mkClient)
        1700000000
      = allocateClientIDLocked "client" cexAllocMap 1700000000 := by
  have hsan : sanitizeClientID "client" = "client" := by decide
  have hid1 : allocateClientIDLocked "client" cexAllocMap 1700000000 =
      allocSuffixSearch "client" cexAllocMap 1700000000 2 := by
    simp only [allocateClientIDLocked, hsan, cexAllocMap_base]
  have hid1v : allocateClientIDLocked "client" cexAllocMap 1700000000 =
      "client" ++ "-" ++ toString (1700000000 : Int) :=
    hid1.trans (allocSuffixSearch_exhausted _ _ _ 2 cexAllocMap_full)
  refine ⟨by decide, ?_⟩
  rw [hid1v]
  have hsanC : sanitizeClientID "Client" = "client" := by decide
  have hne : ("client" : String) ≠ "client" ++ "-" ++ toString (1700000000 : Int) := by decide
  have hfound2 : assocFind
      (assocInsert cexAllocMap ("client" ++ "-" ++ toString (1700000000 : Int)) mkClient)
      "client" = some mkClient := by
    rw [assocFind_insert_ne _ _ hne]
    exact cexAllocMap_base
  have halloc : allocateClientIDLocked "Client"
      (assocInsert cexAllocMap ("client" ++ "-" ++ toString (1700000000 : Int)) mkClient)
      1700000000 =
      allocSuffixSearch "client"
        (assocInsert cexAllocMap ("client" ++ "-" ++ toString (1700000000 : Int)) mkClient)
        1700000000 2 := by
    simp only [allocateClientIDLocked, hsanC, hfound2]
  rw [halloc]
  apply allocSuffixSearch_exhausted
  intro k hk2 hk4
  exact assocFind_insert_of_found _ _ _ (cexAllocMap_full k hk2 hk4)

/-! ## net.ParseIP and IP.String (Go net/netip), for routeExcludeCIDRsForHost -/

/-- Decimal digit test. -/
def isDigitChar (c : Char) : Bool :=
  '0' ≤ c && c ≤ '9'

/-- Numeric value of a decimal digit character. -/
def dvalChar (c : Char) : Nat :=
  c.toNat - 48

/-- Split a character list at every occurrence of `sep` (keeping empty
pieces, like `strings.Split`). -/
def splitOnChar (sep : Char) : List Char → List (List Char)
  | [] => [[]]
  | c :: rest =>
    if c = sep then [] :: splitOnChar sep rest
    else
      match splitOnChar sep rest with
      | [] => [[c]]
      | p :: ps => (c :: p) :: ps

/-- Join pieces with a separator character (left inverse of
`splitOnChar`). -/
def joinWithChar (sep : Char) : List (List Char) → List Char
  | [] => []
  | [p] => p
  | p :: q :: ps => p ++ sep :: joinWithChar sep (q :: ps)

/-- One dotted-decimal IPv4 field, per `netip.parseIPv4Fields`: at least
one digit, no leading zero (except `0` itself), value at most 255. -/
def parseV4Octet (ds : List Char) : Option Nat :=
  if ds.isEmpty then none
  else if !ds.all isDigitChar then none
  else if decide (1 < ds.length) && (ds.head? == some '0') then none
  else
    let v := decDigitsVal ds
    if 255 < v then none else some v

/-- `netip.parseIPv4`: exactly four valid dotted-decimal fields. -/
def parseIPv4 (s : String) : Option (List Nat) :=
  match splitOnChar '.' s.data with
  | [a, b, c, d] =>
    match parseV4Octet a, parseV4Octet b, parseV4Octet c, parseV4Octet d with
    | some va, some vb, some vc, some vd => some [va, vb, vc, vd]
    | _, _, _, _ => none
  | _ => none

/-- Value of one hexadecimal digit character. -/
def hexVal (c : Char) : Option Nat :=
  if '0' ≤ c && c ≤ '9' then some (c.toNat - 48)
  else if 'a' ≤ c && c ≤ 'f' then some (c.toNat - 87)
  else if 'A' ≤ c && c ≤ 'F' then some (c.toNat - 55)
  else none

/-- The inlined hex-field scanner of `netip.parseIPv6`: reads a maximal
run of hex digits into an accumulator, failing on a value `≥ 2^16` or on
an empty run; returns the value, the number of digits read, and the
remaining input. -/
def readHexGroup : List Char → Nat → Nat → Option (Nat × Nat × List Char)
  | [], acc, off => if off = 0 then none else some (acc, off, [])
  | c :: rest, acc, off =>
    match hexVal c with
    | some v =>
      let acc2 := acc * 16 + v
      if 0xFFFF < acc2 then none else readHexGroup rest acc2 (off + 1)
    | none => if off = 0 then none else some (acc, off, c :: rest)

/-- The main loop of `netip.parseIPv6`: parses hex fields separated by
colons into a byte list, recording the position of a single `::`
ellipsis, with an optional embedded dotted IPv4 tail.  Returns the
unconsumed input, the bytes parsed and the ellipsis position.  `fuel`
dominates the input length (each round consumes at least one
character). -/
def parseIPv6Loop : Nat → List Char → List Nat → Option Nat →
    Option (List Char × List Nat × Option Nat)
  | 0, _, _, _ => none
  | fuel + 1, s, ip, ell =>
    if 16 ≤ ip.length then some (s, ip, ell)
    else
      match readHexGroup s 0 0 with
      | none => none
      | some (acc, _off, rest) =>
        if rest.head? = some '.' then
          if ell.isNone && !(ip.length == 12) then none
          else if 16 < ip.length + 4 then none
          else
            match parseIPv4 (String.mk s) with
            | none => none
            | some q => some ([], ip ++ q, ell)
        else
          let ip2 := ip ++ [acc / 256, acc % 256]
          match rest with
          | [] => some ([], ip2, ell)
          | ':' :: rest2 =>
            match rest2 with
            | [] => none
            | ':' :: rest3 =>
              if ell.isSome then none
              else if rest3.isEmpty then some ([], ip2, some ip2.length)
              else parseIPv6Loop fuel rest3 ip2 (some ip2.length)
            | _ => parseIPv6Loop fuel rest2 ip2 ell
          | _ => none

/-- `netip.parseIPv6` as used through `net.ParseIP` (zoned addresses are
rejected, since `net.parseIP` fails on a non-empty zone): parse fields,
then expand the ellipsis with zero bytes; a `::` that expands to nothing
and leftover input are errors. -/
def parseIPv6 (s : String) : Option (List Nat) :=
  let l := s.data
  if l.contains '%' then none
  else
    let start : List Char × Option Nat :=
      match l with
      | ':' :: ':' :: rest => (rest, some 0)
      | _ => (l, none)
    if start.1.isEmpty && start.2 = some 0 then some (List.replicate 16 0)
    else
      match parseIPv6Loop (l.length + 1) start.1 [] start.2 with
      | none => none
      | some (sRem, ip, ell) =>
        if !sRem.isEmpty then none
        else if ip.length < 16 then
          match ell with
          | none => none
          | some e => some (ip.take e ++ List.replicate (16 - ip.length) 0 ++ ip.drop e)
        else
          match ell with
          | some _ => none
          | none => some ip

/-- The 12-byte prefix making a 16-byte IPv4-mapped address. -/
def v4mapped (bs : List Nat) : List Nat :=
  [0, 0, 0, 0, 0, 0, 0, 0, 0, 0, 0xFF, 0xFF] ++ bs

/-- `net.ParseIP` (via `netip.ParseAddr`): dispatch on the first `.`,
`:` or `%` in the string; the result is the 16-byte form (`As16`), an
IPv4 address becoming IPv4-mapped. -/
def goParseIP (s : String) : Option (List Nat) :=
  match s.data.find? (fun c => c == '.' || c == ':' || c == '%') with
  | some c =>
    if c = '.' then (parseIPv4 s).map v4mapped
    else if c = ':' then parseIPv6 s
    else none
  | none => none

/-- `IP.To4` on a 16-byte address: the low four bytes when the address is
IPv4-mapped. -/
def to4 (bs : List Nat) : Option (List Nat) :=
  match bs with
  | [b0, b1, b2, b3, b4, b5, b6, b7, b8, b9, b10, b11, a, b, c, d] =>
    if b0 == 0 && b1 == 0 && b2 == 0 && b3 == 0 && b4 == 0 && b5 == 0 &&
       b6 == 0 && b7 == 0 && b8 == 0 && b9 == 0 && b10 == 0xFF && b11 == 0xFF then
      some [a, b, c, d]
    else none
  | _ => none

/-- Go `net.ubtoa`: decimal text of one byte value. -/
def ubtoa (v : Nat) : List Char :=
  if v < 10 then [Char.ofNat (v + 48)]
  else if v < 100 then [Char.ofNat (v / 10 + 48), Char.ofNat (v % 10 + 48)]
  else [Char.ofNat (v / 100 + 48), Char.ofNat (v / 10 % 10 + 48), Char.ofNat (v % 10 + 48)]

/-- Dotted-decimal form of a 4-byte address (`IP.String` on a To4
result). -/
def fmtIPv4 (bs : List Nat) : String :=
  String.mk (joinWithChar '.' (bs.map ubtoa))

/-- Lowercase hex digit character. -/
def hexDigitChar (n : Nat) : Char :=
  if n < 10 then Char.ofNat (n + 48) else Char.ofNat (n + 87)

/-- Go `net.appendHex`: lowercase hex text of a 16-bit group without
leading zeros. -/
def fmtHexGroup (v : Nat) : List Char :=
  if v = 0 then ['0']
  else
    (if 4096 ≤ v then [hexDigitChar (v / 4096 % 16)] else []) ++
    (if 256 ≤ v then [hexDigitChar (v / 256 % 16)] else []) ++
    (if 16 ≤ v then [hexDigitChar (v / 16 % 16)] else []) ++
    [hexDigitChar (v % 16)]

/-- Length of the zero-group run starting at the head. -/
def countZeroGroups : List Nat → Nat
  | 0 :: rest => 1 + countZeroGroups rest
  | _ => 0

/-- The zero-run scan of `IP.String`: find the first longest run of zero
groups (start index, length), preferring earlier runs on ties. -/
def zeroRunScan : Nat → List Nat → Nat → (Nat × Nat) → Nat × Nat
  | 0, _, _, best => best
  | _ + 1, [], _, best => best
  | fuel + 1, g :: rest, i, best =>
    if g = 0 then
      let z := 1 + countZeroGroups rest
      let best2 := if best.2 < z then (i, z) else best
      zeroRunScan fuel (rest.drop (z - 1)) (i + z) best2
    else zeroRunScan fuel rest (i + 1) best

/-- The `::`-compressible run of an 8-group address: the first longest
run of at least two zero groups, if any (`IP.String` refuses to compress
a single zero group). -/
def findZeroRun (gs : List Nat) : Option (Nat × Nat) :=
  let best := zeroRunScan gs.length gs 0 (0, 0)
  if best.2 ≤ 1 then none else some best

/-- Big-endian 16-bit groups of a byte list. -/
def bytesToGroups : List Nat → List Nat
  | b0 :: b1 :: rest => (b0 * 256 + b1) :: bytesToGroups rest
  | _ => []

/-- `IP.String` on a 16-byte non-IPv4-mapped address: hex groups joined
by colons, with the first longest zero run of length at least two
replaced by `::`. -/
def fmtIPv6 (bs : List Nat) : String :=
  let gs := bytesToGroups bs
  match findZeroRun gs with
  | none => String.mk (joinWithChar ':' (gs.map fmtHexGroup))
  | some (st, len) =>
    String.mk (joinWithChar ':' ((gs.take st).map fmtHexGroup) ++ [':', ':'] ++
      joinWithChar ':' ((gs.drop (st + len)).map fmtHexGroup))

/-- `routeExcludeCIDRsForHost` (manager.go:680-695). -/
def routeExcludeCIDRsForHost (host : String) : List String :=
  let trimmedHost := goTrimSpace host
  if trimmedHost = "" then []
  else
    match goParseIP trimmedHost with
    | none => []
    | some bs =>
      match to4 bs with
      | some q => [fmtIPv4 q ++ "/32"]
      | none => [fmtIPv6 bs ++ "/128"]

/-! ## Claim C3: dotted-decimal round-trip and route exclusions -/

theorem char_toNat_inj {c d : Char} (h : c.toNat = d.toNat) : c = d := by
  rw [← Char.ofNat_toNat c, ← Char.ofNat_toNat d, h]

theorem digit_bounds {c : Char} (h : isDigitChar c = true) :
    48 ≤ c.toNat ∧ c.toNat ≤ 57 := by
  have h0 : ('0' : Char) ≤ c ∧ c ≤ '9' := by simpa [isDigitChar] using h
  obtain ⟨h1, h2⟩ := h0
  rw [Char.le_def] at h1 h2
  exact ⟨h1, h2⟩

theorem digitChar_roundtrip {c : Char} (h : isDigitChar c = true) :
    Char.ofNat (dvalChar c + 48) = c := by
  obtain ⟨h1, _h2⟩ := digit_bounds h
  have he : dvalChar c + 48 = c.toNat := by unfold dvalChar; omega
  rw [he, Char.ofNat_toNat]

theorem dvalChar_le {c : Char} (h : isDigitChar c = true) : dvalChar c ≤ 9 := by
  obtain ⟨h1, h2⟩ := digit_bounds h
  unfold dvalChar
  omega

theorem dvalChar_pos {c : Char} (h : isDigitChar c = true) (hne : c ≠ '0') :
    1 ≤ dvalChar c := by
  obtain ⟨h1, _h2⟩ := digit_bounds h
  have : c.toNat ≠ 48 := by
    intro he
    exact hne (char_toNat_inj (by rw [he]; rfl))
  unfold dvalChar
  omega

theorem decDigitsVal_shift (l : List Char) :
    ∀ a0 : Nat, l.foldl (fun a c => a * 10 + (c.toNat - 48)) a0 =
      a0 * 10 ^ l.length + decDigitsVal l := by
  induction l with
  | nil => intro a0; simp [decDigitsVal]
  | cons c t ih =>
    intro a0
    simp only [List.foldl_cons, List.length_cons, decDigitsVal]
    rw [ih (a0 * 10 + (c.toNat - 48)), ih (0 * 10 + (c.toNat - 48))]
    ring

theorem decDigitsVal_cons (c : Char) (t : List Char) :
    decDigitsVal (c :: t) = dvalChar c * 10 ^ t.length + decDigitsVal t := by
  show (c :: t).foldl (fun a c => a * 10 + (c.toNat - 48)) 0 = _
  rw [List.foldl_cons, decDigitsVal_shift]
  unfold dvalChar
  ring_nf

theorem decDigitsVal_one (a : Char) : decDigitsVal [a] = dvalChar a := by
  simp [decDigitsVal, dvalChar]

theorem decDigitsVal_two (a b : Char) :
    decDigitsVal [a, b] = dvalChar a * 10 + dvalChar b := by
  simp [decDigitsVal, dvalChar]

theorem decDigitsVal_three (a b c : Char) :
    decDigitsVal [a, b, c] = dvalChar a * 100 + dvalChar b * 10 + dvalChar c := by
  simp [decDigitsVal, dvalChar]
  ring

theorem parseV4Octet_inv {ds : List Char} {v : Nat} (h : parseV4Octet ds = some v) :
    ds ≠ [] ∧ ds.all isDigitChar = true ∧
    (1 < ds.length → ds.head? ≠ some '0') ∧ decDigitsVal ds = v ∧ v ≤ 255 := by
  unfold parseV4Octet at h
  split_ifs at h with h1 h2 h3
  by_cases h4 : 255 < decDigitsVal ds
  · simp only [if_pos h4] at h
    exact absurd h (by simp)
  · simp only [if_neg h4] at h
    have hv := (Option.some.injEq _ _).mp h
    refine ⟨by simpa [List.isEmpty_iff] using h1, by simpa using h2, ?_, hv, by omega⟩
    intro hlen hhead
    rw [Bool.not_eq_true, Bool.and_eq_false_iff] at h3
    rcases h3 with h3 | h3
    · simp [hlen] at h3
    · rw [hhead] at h3
      simp at h3

theorem parseV4Octet_len {ds : List Char} {v : Nat} (h : parseV4Octet ds = some v) :
    ds.length ≤ 3 := by
  obtain ⟨hne, hdig, hlead, hval, hle⟩ := parseV4Octet_inv h
  by_contra hgt
  push_neg at hgt
  cases ds with
  | nil => exact hne rfl
  | cons c t =>
    simp only [List.length_cons] at hgt
    have hc : isDigitChar c = true := by
      rw [List.all_cons, Bool.and_eq_true] at hdig
      exact hdig.1
    have hcne : c ≠ '0' := by
      intro he
      exact hlead (by simp only [List.length_cons]; omega) (by rw [he]; rfl)
    have h1 := dvalChar_pos hc hcne
    have hv := decDigitsVal_cons c t
    have hpow : 1000 ≤ 10 ^ t.length := by
      calc (1000 : Nat) = 10 ^ 3 := by norm_num
      _ ≤ 10 ^ t.length := Nat.pow_le_pow_right (by omega) (by omega)
    have hmul : 1 * 1000 ≤ dvalChar c * 10 ^ t.length := Nat.mul_le_mul h1 hpow
    omega

theorem parseV4Octet_roundtrip {ds : List Char} {v : Nat} (h : parseV4Octet ds = some v) :
    ubtoa v = ds := by
  obtain ⟨hne, hdig, hlead, hval, hle⟩ := parseV4Octet_inv h
  have hlen := parseV4Octet_len h
  match ds, hne with
  | [a], _ =>
    rw [List.all_cons, List.all_nil, Bool.and_eq_true] at hdig
    have ha := hdig.1
    have hv : v = dvalChar a := by rw [← decDigitsVal_one a]; exact hval.symm
    have hsmall : v < 10 := by have := dvalChar_le ha; omega
    unfold ubtoa
    rw [if_pos hsmall, hv, digitChar_roundtrip ha]
  | [a, b], _ =>
    simp only [List.all_cons, List.all_nil, Bool.and_eq_true] at hdig
    obtain ⟨ha, hb, _⟩ := hdig
    have hane : a ≠ '0' := by
      intro he
      exact hlead (by simp) (by rw [he]; rfl)
    have hva := dvalChar_pos ha hane
    have hva9 := dvalChar_le ha
    have hvb9 := dvalChar_le hb
    have hv : v = dvalChar a * 10 + dvalChar b := by
      rw [← decDigitsVal_two a b]; exact hval.symm
    have h10 : ¬ v < 10 := by omega
    have h100 : v < 100 := by omega
    unfold ubtoa
    rw [if_neg h10, if_pos h100]
    have e1 : v / 10 = dvalChar a := by omega
    have e2 : v % 10 = dvalChar b := by omega
    rw [e1, e2, digitChar_roundtrip ha, digitChar_roundtrip hb]
  | [a, b, c], _ =>
    simp only [List.all_cons, List.all_nil, Bool.and_eq_true] at hdig
    obtain ⟨ha, hb, hc, _⟩ := hdig
    have hane : a ≠ '0' := by
      intro he
      exact hlead (by simp) (by rw [he]; rfl)
    have hva := dvalChar_pos ha hane
    have hva9 := dvalChar_le ha
    have hvb9 := dvalChar_le hb
    have hvc9 := dvalChar_le hc
    have hv : v = dvalChar a * 100 + dvalChar b * 10 + dvalChar c := by
      rw [← decDigitsVal_three a b c]; exact hval.symm
    have h10 : ¬ v < 10 := by omega
    have h100 : ¬ v < 100 := by omega
    unfold ubtoa
    rw [if_neg h10, if_neg h100]
    have e1 : v / 100 = dvalChar a := by omega
    have e2 : v / 10 % 10 = dvalChar b := by omega
    have e3 : v % 10 = dvalChar c := by omega
    rw [e1, e2, e3, digitChar_roundtrip ha, digitChar_roundtrip hb, digitChar_roundtrip hc]
  | _ :: _ :: _ :: _ :: _, _ => simp at hlen

theorem splitOnChar_ne_nil (sep : Char) (l : List Char) : splitOnChar sep l ≠ [] := by
  cases l with
  | nil => simp [splitOnChar]
  | cons c rest =>
    unfold splitOnChar
    by_cases hc : c = sep
    · rw [if_pos hc]; simp
    · rw [if_neg hc]
      cases splitOnChar sep rest with
      | nil => simp
      | cons p ps => simp

theorem joinWithChar_splitOnChar (sep : Char) (l : List Char) :
    joinWithChar sep (splitOnChar sep l) = l := by
  induction l with
  | nil => rfl
  | cons c rest ih =>
    unfold splitOnChar
    by_cases hc : c = sep
    · rw [if_pos hc]
      cases hsp : splitOnChar sep rest with
      | nil => exact absurd hsp (splitOnChar_ne_nil sep rest)
      | cons p ps =>
        rw [hsp] at ih
        show [] ++ sep :: joinWithChar sep (p :: ps) = c :: rest
        rw [List.nil_append, ih, hc]
    · rw [if_neg hc]
      cases hsp : splitOnChar sep rest with
      | nil => exact absurd hsp (splitOnChar_ne_nil sep rest)
      | cons p ps =>
        rw [hsp] at ih
        cases ps with
        | nil =>
          show c :: p = c :: rest
          rw [show joinWithChar sep [p] = p from rfl] at ih
          rw [ih]
        | cons q qs =>
          show (c :: p) ++ sep :: joinWithChar sep (q :: qs) = c :: rest
          rw [show joinWithChar sep (p :: q :: qs) = p ++ sep :: joinWithChar sep (q :: qs)
            from rfl] at ih
          rw [List.cons_append, ih]

theorem parseIPv4_shape {s : String} {bs : List Nat} (h : parseIPv4 s = some bs) :
    ∃ a b c d va vb vc vd,
      splitOnChar '.' s.data = [a, b, c, d] ∧
      parseV4Octet a = some va ∧ parseV4Octet b = some vb ∧
      parseV4Octet c = some vc ∧ parseV4Octet d = some vd ∧
      bs = [va, vb, vc, vd] := by
  unfold parseIPv4 at h
  cases hsp : splitOnChar '.' s.data with
  | nil => rw [hsp] at h; exact absurd h (by simp)
  | cons a ps =>
    rw [hsp] at h
    match ps, h with
    | [b, c, d], h =>
      replace h : (match parseV4Octet a, parseV4Octet b, parseV4Octet c, parseV4Octet d with
        | some va, some vb, some vc, some vd => some [va, vb, vc, vd]
        | _, _, _, _ => none) = some bs := h
      cases hva : parseV4Octet a with
      | none => rw [hva] at h; exact absurd h (by simp)
      | some va =>
        cases hvb : parseV4Octet b with
        | none => rw [hva, hvb] at h; exact absurd h (by simp)
        | some vb =>
          cases hvc : parseV4Octet c with
          | none => rw [hva, hvb, hvc] at h; exact absurd h (by simp)
          | some vc =>
            cases hvd : parseV4Octet d with
            | none => rw [hva, hvb, hvc, hvd] at h; exact absurd h (by simp)
            | some vd =>
              rw [hva, hvb, hvc, hvd] at h
              simp only [Option.some.injEq] at h
              exact ⟨a, b, c, d, va, vb, vc, vd, rfl, hva, hvb, hvc, hvd, h.symm⟩

theorem parseIPv4_roundtrip {s : String} {bs : List Nat} (h : parseIPv4 s = some bs) :
    fmtIPv4 bs = s := by
  obtain ⟨a, b, c, d, va, vb, vc, vd, hsp, hva, hvb, hvc, hvd, hbs⟩ := parseIPv4_shape h
  rw [hbs]
  unfold fmtIPv4
  rw [show [va, vb, vc, vd].map ubtoa = [ubtoa va, ubtoa vb, ubtoa vc, ubtoa vd] from rfl]
  rw [parseV4Octet_roundtrip hva, parseV4Octet_roundtrip hvb,
    parseV4Octet_roundtrip hvc, parseV4Octet_roundtrip hvd]
  rw [← hsp, joinWithChar_splitOnChar]

theorem isSpecialChar_of_digit {c : Char} (h : isDigitChar c = true) :
    (c == '.' || c == ':' || c == '%') = false := by
  obtain ⟨h1, h2⟩ := digit_bounds h
  have hne1 : c ≠ '.' := fun he => by revert h1 h2; rw [he]; decide
  have hne2 : c ≠ ':' := fun he => by revert h1 h2; rw [he]; decide
  have hne3 : c ≠ '%' := fun he => by revert h1 h2; rw [he]; decide
  simp [hne1, hne2, hne3]

theorem parseIPv4_chars {s : String} {bs : List Nat} (h : parseIPv4 s = some bs) :
    s.data.find? (fun c => c == '.' || c == ':' || c == '%') = some '.' := by
  obtain ⟨a, b, c, d, va, vb, vc, vd, hsp, hva, hvb, hvc, hvd, _⟩ := parseIPv4_shape h
  have hdata : s.data = a ++ '.' :: (b ++ '.' :: (c ++ '.' :: d)) := by
    conv_lhs => rw [← joinWithChar_splitOnChar '.' s.data, hsp]
    rfl
  have hnone : ∀ (l : List Char) (vl : Nat), parseV4Octet l = some vl →
      l.find? (fun c => c == '.' || c == ':' || c == '%') = none := by
    intro l vl hl
    obtain ⟨_, hdig, _, _, _⟩ := parseV4Octet_inv hl
    rw [List.find?_eq_none]
    intro x hx
    have hxd : isDigitChar x = true := by
      rw [List.all_eq_true] at hdig
      exact hdig x hx
    simp [isSpecialChar_of_digit hxd]
  rw [hdata, List.find?_append, hnone a va hva]
  simp

theorem goParseIP_of_parseIPv4 {s : String} {bs : List Nat} (h : parseIPv4 s = some bs) :
    goParseIP s = some (v4mapped bs) := by
  unfold goParseIP
  rw [parseIPv4_chars h]
  show Option.map v4mapped (parseIPv4 s) = some (v4mapped bs)
  rw [h]
  rfl

theorem routeExclude_of_none {host : String} (h : goParseIP (goTrimSpace host) = none) :
    routeExcludeCIDRsForHost host = [] := by
  simp only [routeExcludeCIDRsForHost]
  by_cases he : goTrimSpace host = ""
  · rw [if_pos he]
  · rw [if_neg he, h]

theorem routeExclude_of_v4 {host : String} {bs : List Nat}
    (h : parseIPv4 (goTrimSpace host) = some bs) :
    routeExcludeCIDRsForHost host = [goTrimSpace host ++ "/32"] := by
  have hne : goTrimSpace host ≠ "" := by
    intro he
    rw [he] at h
    rw [show parseIPv4 "" = none from rfl] at h
    exact Option.noConfusion h
  obtain ⟨a, b, c, d, va, vb, vc, vd, _, _, _, _, _, hbs⟩ := parseIPv4_shape h
  subst hbs
  simp only [routeExcludeCIDRsForHost]
  rw [if_neg hne, goParseIP_of_parseIPv4 h]
  show [fmtIPv4 [va, vb, vc, vd] ++ "/32"] = [goTrimSpace host ++ "/32"]
  rw [parseIPv4_roundtrip h]

theorem routeExclude_of_v6 {host : String} {bs : List Nat}
    (h : goParseIP (goTrimSpace host) = some bs) (h4 : to4 bs = none) :
    routeExcludeCIDRsForHost host = [fmtIPv6 bs ++ "/128"] := by
  have hne : goTrimSpace host ≠ "" := by
    intro he
    rw [he] at h
    rw [show goParseIP "" = none from rfl] at h
    exact Option.noConfusion h
  simp only [routeExcludeCIDRsForHost]
  rw [if_neg hne, h]
  show (match to4 bs with
        | some q => [fmtIPv4 q ++ "/32"]
        | none => [fmtIPv6 bs ++ "/128"]) = [fmtIPv6 bs ++ "/128"]
  rw [h4]

/-! ## The configuration documents (Config, Json, buildClientConfigMap) -/

/-- `type Config struct` (config.go:9-26).  `iface` is the Go field
`Interface`. -/
structure Config where
  stateDir : String
  iface : String
  listenAddress : String
  listenPort : Int
  endpointHost : String
  websocketPath : String
  tlsServerName : String
  tlsCertPath : String
  tlsKeyPath : String
  clientTunName : String
  clientTunCIDR : String
  clientInsecureTLS : Bool
  singBoxBinary : String
  apiBind : String
  apiToken : String
  autoStart : Bool
deriving Repr

/-- JSON documents (the `map[string]any` values the manager builds and
marshals); objects carry their entries as a list of key/value pairs. -/
inductive Json where
  | null : Json
  | bool (b : Bool) : Json
  | num (q : Rat) : Json
  | str (s : String) : Json
  | arr (xs : List Json) : Json
  | obj (kvs : List (String × Json)) : Json

/-- Lexicographic order on character lists by scalar value (for strings,
this coincides with Go's byte-wise comparison, since UTF-8 byte order
equals scalar-value order). -/
def charListLtB : List Char → List Char → Bool
  | [], [] => false
  | [], _ :: _ => true
  | _ :: _, [] => false
  | a :: as, b :: bs =>
    if a.toNat < b.toNat then true
    else if b.toNat < a.toNat then false
    else charListLtB as bs

/-- Go string comparison `a < b`. -/
def goStringLt (a b : String) : Bool :=
  charListLtB a.data b.data

/-- Insertion into a key-sorted member list. -/
def insertSorted (kv : String × Json) : List (String × Json) → List (String × Json)
  | [] => [kv]
  | kv2 :: rest =>
    if goStringLt kv.1 kv2.1 then kv :: kv2 :: rest else kv2 :: insertSorted kv rest

/-- Sort object members by key, byte-wise (UTF-8 byte order coincides
with scalar-value order). -/
def sortByKey (kvs : List (String × Json)) : List (String × Json) :=
  kvs.foldr insertSorted []

/-- A Go `map[string]any` value: `encoding/json` emits map keys in
sorted order, so a map is modelled as an object with sorted members
(struct values, whose fields are emitted in declaration order, use
`Json.obj` directly). -/
def jmap (kvs : List (String × Json)) : Json :=
  Json.obj (sortByKey kvs)

/-- `splitAndTrimCSV` (manager.go:724-735). -/
def splitAndTrimCSV (raw : String) : List String :=
  ((splitOnChar ',' raw.data).map (fun p => goTrimSpace (String.mk p))).filter
    (fun s => !(s == ""))

/-- The fixed `privateCIDRs` list of `buildClientConfigMap`
(manager.go:544-554). -/
def privateCIDRs : List String :=
  ["127.0.0.0/8", "10.0.0.0/8", "172.16.0.0/12", "192.168.0.0/16",
   "169.254.0.0/16", "224.0.0.0/4", "::1/128", "fc00::/7", "fe80::/10"]

/-- The tun inbound object of the client document (manager.go:539-568),
with the endpoint exclusion list passed in (the caller computes it with
`routeExcludeCIDRsForHost`): the `route_exclude_address` key is present
exactly when that list is non-empty. -/
def tunInboundEntries (cfg : Config) (endpointExcludeCIDRs : List String) :
    List (String × Json) :=
  let tunAddresses0 := splitAndTrimCSV cfg.clientTunCIDR
  let tunAddresses := if tunAddresses0.isEmpty then ["172.19.0.1/30"] else tunAddresses0
  [("type", Json.str "tun"), ("tag", Json.str "tun-in"),
   ("interface_name", Json.str cfg.clientTunName),
   ("address", Json.arr (tunAddresses.map Json.str)),
   ("auto_route", Json.bool true), ("strict_route", Json.bool true),
   ("sniff", Json.bool true), ("sniff_override_destination", Json.bool false),
   ("stack", Json.str "mixed")] ++
  (match endpointExcludeCIDRs with
   | [] => []
   | _ :: _ => [("route_exclude_address", Json.arr (endpointExcludeCIDRs.map Json.str))])

/-- `buildClientConfigMap` (manager.go:537-633). -/
def buildClientConfigMap (cfg : Config) (c : Client) : Json :=
  let hp := resolveEndpointHostPort cfg.endpointHost cfg.listenPort
  jmap [
    ("log", jmap [("level", Json.str "warn")]),
    ("dns", jmap [
      ("servers", Json.arr [jmap [
        ("type", Json.str "udp"), ("tag", Json.str "dns-remote"),
        ("server", Json.str "1.1.1.1"), ("detour", Json.str "vless-out")]]),
      ("final", Json.str "dns-remote"),
      ("strategy", Json.str "prefer_ipv4")]),
    ("inbounds", Json.arr [jmap (tunInboundEntries cfg (routeExcludeCIDRsForHost hp.1))]),
    ("outbounds", Json.arr [
      jmap [
        ("type", Json.str "vless"), ("tag", Json.str "vless-out"),
        ("server", Json.str hp.1), ("server_port", Json.num (hp.2 : Rat)),
        ("uuid", Json.str c.uuid),
        ("tls", jmap [
          ("enabled", Json.bool true), ("server_name", Json.str cfg.tlsServerName),
          ("insecure", Json.bool cfg.clientInsecureTLS)]),
        ("transport", jmap [
          ("type", Json.str "ws"), ("path", Json.str cfg.websocketPath)])],
      jmap [("type", Json.str "direct"), ("tag", Json.str "direct")],
      jmap [("type", Json.str "block"), ("tag", Json.str "block")]]),
    ("route", jmap [
      ("auto_detect_interface", Json.bool true),
      ("default_domain_resolver", jmap [
        ("server", Json.str "dns-remote"), ("strategy", Json.str "prefer_ipv4")]),
      ("rules", Json.arr [
        jmap [("protocol", Json.str "dns"), ("action", Json.str "hijack-dns")],
        jmap [("ip_cidr", Json.arr (privateCIDRs.map Json.str)),
              ("outbound", Json.str "direct")]]),
      ("final", Json.str "vless-out")])]

/-- Object field access on a document. -/
def jsonLookup (j : Json) (k : String) : Option Json :=
  match j with
  | Json.obj kvs => assocFind kvs k
  | _ => none

/-- The `route_exclude_address` value of the tun inbound of a generated
client document. -/
def tunExcludeValue (cfg : Config) (c : Client) : Option Json :=
  match jsonLookup (buildClientConfigMap cfg c) "inbounds" with
  | some (Json.arr (tun :: _)) => jsonLookup tun "route_exclude_address"
  | _ => none

/-- A concrete configuration (the defaults of `LoadConfigFromEnv` with the
given endpoint), for instantiating claims. -/
def testConfig (host : String) : Config :=
  { stateDir := "/etc/vpn", iface := "vless", listenAddress := "::",
    listenPort := 443, endpointHost := host, websocketPath := "/vpn",
    tlsServerName := host, tlsCertPath := "/etc/vpn/tls/server.crt",
    tlsKeyPath := "/etc/vpn/tls/server.key", clientTunName := "sb-tun",
    clientTunCIDR := "172.19.0.1/30", clientInsecureTLS := true,
    singBoxBinary := "sing-box", apiBind := "127.0.0.1:8080", apiToken := "",
    autoStart := true }

theorem tunExclude_entries (cfg : Config) (ecs : List String) :
    jsonLookup (jmap (tunInboundEntries cfg ecs)) "route_exclude_address" =
      (match ecs with
       | [] => none
       | x :: xs => some (Json.arr ((x :: xs).map Json.str))) := by
  cases ecs with
  | nil => rfl
  | cons x xs => rfl

theorem tunExcludeValue_eq (cfg : Config) (c : Client) :
    tunExcludeValue cfg c =
      (match routeExcludeCIDRsForHost
          (resolveEndpointHostPort cfg.endpointHost cfg.listenPort).1 with
       | [] => none
       | x :: xs => some (Json.arr ((x :: xs).map Json.str))) := by
  have h1 : tunExcludeValue cfg c =
      jsonLookup (jmap (tunInboundEntries cfg (routeExcludeCIDRsForHost
        (resolveEndpointHostPort cfg.endpointHost cfg.listenPort).1)))
        "route_exclude_address" := rfl
  rw [h1, tunExclude_entries]

/-- C3 (amended): writing `h` for the trimmed resolved endpoint host — if
`h` is a dotted-decimal IPv4 literal, the tun inbound of the generated
client document carries `route_exclude_address = [h ++ "/32"]`; if `h` is
no IP literal at all, the key is absent; and if `h` is an IPv6 literal
that is not IPv4-mapped, the exclusion is the *canonical* text of the
address followed by `/128` (which equals `h ++ "/128"` only when `h` is
already in canonical form — see the counterexample); in particular
endpoint `"111.88.141.226"` yields `["111.88.141.226/32"]` and
`"vpn.example.com"` yields no such key. -/
theorem routeExcludeAddress_claim :
    (∀ (cfg : Config) (c : Client) (bs : List Nat),
      parseIPv4 (goTrimSpace (resolveEndpointHostPort cfg.endpointHost cfg.listenPort).1) =
        some bs →
      tunExcludeValue cfg c = some (Json.arr [Json.str
        (goTrimSpace (resolveEndpointHostPort cfg.endpointHost cfg.listenPort).1 ++ "/32")])) ∧
    (∀ (cfg : Config) (c : Client),
      goParseIP (goTrimSpace (resolveEndpointHostPort cfg.endpointHost cfg.listenPort).1) =
        none →
      tunExcludeValue cfg c = none) ∧
    (∀ (cfg : Config) (c : Client) (bs : List Nat),
      goParseIP (goTrimSpace (resolveEndpointHostPort cfg.endpointHost cfg.listenPort).1) =
        some bs →
      to4 bs = none →
      tunExcludeValue cfg c = some (Json.arr [Json.str (fmtIPv6 bs ++ "/128")])) ∧
    tunExcludeValue (testConfig "111.88.141.226") mkClient =
      some (Json.arr [Json.str "111.88.141.226/32"]) ∧
    tunExcludeValue (testConfig "vpn.example.com") mkClient = none := by
  refine ⟨?_, ?_, ?_, rfl, rfl⟩
  · intro cfg c bs h
    rw [tunExcludeValue_eq, routeExclude_of_v4 h]
    rfl
  · intro cfg c h
    rw [tunExcludeValue_eq, routeExclude_of_none h]
  · intro cfg c bs h h4
    rw [tunExcludeValue_eq, routeExclude_of_v6 h h4]
    rfl

/-- Witness for C3: the IPv4 clause applies at a concrete literal-IP
endpoint. -/
theorem routeExcludeAddress_claim_witness :
    tunExcludeValue (testConfig "10.0.0.7") mkClient = some (Json.arr [Json.str
      (goTrimSpace (resolveEndpointHostPort (testConfig "10.0.0.7").endpointHost
        (testConfig "10.0.0.7").listenPort).1 ++ "/32")]) :=
  routeExcludeAddress_claim.1 (testConfig "10.0.0.7") mkClient [10, 0, 0, 7] rfl

/-- Counterexample for C3 as frozen: `"0::1"` is a literal IPv6 address
(ParseIP accepts it), yet the generated exclusion is the canonical
`"::1/128"`, not `host ++ "/128" = "0::1/128"`. -/
theorem routeExcludeAddress_counterexample :
    goParseIP "0::1" ≠ none ∧
    tunExcludeValue (testConfig "0::1") mkClient = some (Json.arr [Json.str "::1/128"]) ∧
    ("::1/128" : String) ≠ "0::1/128" := by
  refine ⟨?_, rfl, by decide⟩
  intro h
  rw [show goParseIP "0::1" =
    some [0, 0, 0, 0, 0, 0, 0, 0, 0, 0, 0, 0, 0, 0, 0, 1] from rfl] at h
  exact Option.noConfusion h

/-! ## Claim C7: the client route table and DNS configuration -/

/-- Modelled from the claim wording, for comparison with the code: the
RFC1918 (and IPv6 unique-local) private blocks, the loopback blocks and
the link-local blocks. -/
def rfc1918LoopbackLinkLocalCIDRs : List String :=
  ["10.0.0.0/8", "172.16.0.0/12", "192.168.0.0/16", "fc00::/7",
   "127.0.0.0/8", "::1/128", "169.254.0.0/16", "fe80::/10"]

/-- C7 (amended): for every configuration and client record, the generated
client document's route table contains exactly, in this order, a rule
hijacking DNS protocol traffic, a rule sending the fixed allowlist
`privateCIDRs` — the RFC1918/unique-local, loopback and link-local blocks
*plus the IPv4 multicast block `224.0.0.0/4`* — to the direct outbound,
and a final default of `vless-out`; and the document's DNS resolution
uses a single remote resolver (`1.1.1.1` over UDP) reached via the
client's own `vless-out` tunnel outbound. -/
theorem clientRouteRules_claim (cfg : Config) (c : Client) :
    jsonLookup (buildClientConfigMap cfg c) "route" = some (jmap [
      ("auto_detect_interface", Json.bool true),
      ("default_domain_resolver", jmap [
        ("server", Json.str "dns-remote"), ("strategy", Json.str "prefer_ipv4")]),
      ("rules", Json.arr [
        jmap [("protocol", Json.str "dns"), ("action", Json.str "hijack-dns")],
        jmap [("ip_cidr", Json.arr (privateCIDRs.map Json.str)),
              ("outbound", Json.str "direct")]]),
      ("final", Json.str "vless-out")]) ∧
    jsonLookup (buildClientConfigMap cfg c) "dns" = some (jmap [
      ("servers", Json.arr [jmap [
        ("type", Json.str "udp"), ("tag", Json.str "dns-remote"),
        ("server", Json.str "1.1.1.1"), ("detour", Json.str "vless-out")]]),
      ("final", Json.str "dns-remote"),
      ("strategy", Json.str "prefer_ipv4")]) :=
  ⟨rfl, rfl⟩

/-- Counterexample for C7 as frozen: the allowlist of the second route
rule is not made up solely of RFC1918/loopback/link-local blocks — it
also carries the IPv4 multicast block `224.0.0.0/4`. -/
theorem clientRouteRules_counterexample :
    "224.0.0.0/4" ∈ privateCIDRs ∧
    "224.0.0.0/4" ∉ rfc1918LoopbackLinkLocalCIDRs ∧
    jsonLookup (buildClientConfigMap (testConfig "vpn.example.com") mkClient) "route" =
      some (jmap [
        ("auto_detect_interface", Json.bool true),
        ("default_domain_resolver", jmap [
          ("server", Json.str "dns-remote"), ("strategy", Json.str "prefer_ipv4")]),
        ("rules", Json.arr [
          jmap [("protocol", Json.str "dns"), ("action", Json.str "hijack-dns")],
          jmap [("ip_cidr", Json.arr (privateCIDRs.map Json.str)),
                ("outbound", Json.str "direct")]]),
        ("final", Json.str "vless-out")]) :=
  ⟨by decide, by decide, rfl⟩

/-! ## filepath.Join / Clean (Go path/filepath, Unix rules) -/

/-- One step of `path.Clean`: push a path element onto the (reversed)
output stack, resolving `.` and `..`. -/
def cleanPushSeg (rooted : Bool) (acc : List String) (seg : String) : List String :=
  if seg = "" || seg = "." then acc
  else if seg = ".." then
    match acc with
    | [] => if rooted then [] else [".."]
    | a :: rest => if a = ".." then ".." :: acc else rest
  else seg :: acc

/-- `filepath.Clean` for Unix paths: split on `/`, drop empty and `.`
elements, resolve `..`, and rebuild (empty results become `.`, rooted
paths keep their leading `/`). -/
def pathClean (p : String) : String :=
  if p = "" then "."
  else
    let rooted := p.data.head? == some '/'
    let segs := (splitOnChar '/' p.data).map String.mk
    let outSegs := (segs.foldl (cleanPushSeg rooted) []).reverse
    let body := String.intercalate "/" outSegs
    if rooted then (if body = "" then "/" else "/" ++ body)
    else (if body = "" then "." else body)

/-- `filepath.Join` of two elements: non-empty elements joined by `/`
and cleaned; all-empty input yields the empty string. -/
def goFilepathJoin (dir name : String) : String :=
  if dir = "" && name = "" then ""
  else if dir = "" then pathClean name
  else if name = "" then pathClean dir
  else pathClean (dir ++ "/" ++ name)

theorem string_append_ne_empty_left (a b : String) (h : a ≠ "") : a ++ b ≠ "" := by
  intro he
  apply h
  have hd : a.data ++ b.data = ([] : List Char) := by
    have h2 : (a ++ b).data = a.data ++ b.data := by cases a; cases b; rfl
    rw [he] at h2
    exact h2.symm
  have ha : a.data = [] := (List.append_eq_nil.mp hd).1
  cases a with
  | mk d => exact congrArg String.mk ha

theorem pathClean_ne_empty (p : String) : pathClean p ≠ "" := by
  have hgen : ∀ (rooted : Bool) (body : String),
      (if rooted then (if body = "" then "/" else "/" ++ body)
       else (if body = "" then "." else body)) ≠ ("" : String) := by
    intro rooted body
    cases rooted
    · by_cases hb : body = ""
      · simp [hb]
      · simp [hb]
    · by_cases hb : body = ""
      · simp [hb]
      · simp only [if_true, hb, if_false]
        exact string_append_ne_empty_left "/" body (by decide)
  unfold pathClean
  by_cases h : p = ""
  · rw [if_pos h]; decide
  · rw [if_neg h]
    exact hgen _ _

theorem goFilepathJoin_ne_empty (dir name : String) (h : name ≠ "") :
    goFilepathJoin dir name ≠ "" := by
  unfold goFilepathJoin
  by_cases hd : dir = ""
  · simp only [hd, h, if_true, if_false, Bool.true_and]
    simp [h]
    exact pathClean_ne_empty name
  · simp only [hd, h, if_false]
    simp [hd, h]
    exact pathClean_ne_empty (dir ++ "/" ++ name)

/-! ## Client store heal and normalization (loadClientsLocked / saveClientsLocked) -/

/-- The per-record heal of `loadClientsLocked` (manager.go:351-382),
flattened field by field: empty id backfilled from the map key, empty
name from the key, empty uuid freshly generated, empty address from the
(healed) uuid, empty config path derived from the (healed) id, zero
created-at set to now.  The boolean is the `changed` flag contribution. -/
def healEntry (clientsDir : String) (now : Int) (freshUuid : String) (k : String)
    (c : Client) : Client × Bool :=
  let id2 := if goTrimSpace c.id = "" then k else c.id
  let name2 := if goTrimSpace c.name = "" then k else c.name
  let uuid2 := if goTrimSpace c.uuid = "" then freshUuid else c.uuid
  let address2 := if goTrimSpace c.address = "" then uuid2 else c.address
  let configPath2 :=
    if goTrimSpace c.configPath = "" then goFilepathJoin clientsDir (id2 ++ ".json")
    else c.configPath
  let createdAt2 := if c.createdAt = 0 then now else c.createdAt
  (⟨id2, name2, uuid2, address2, configPath2, createdAt2⟩,
   decide (goTrimSpace c.id = "") || decide (goTrimSpace c.name = "") ||
   decide (goTrimSpace c.uuid = "") || decide (goTrimSpace c.address = "") ||
   decide (goTrimSpace c.configPath = "") || decide (c.createdAt = 0))

/-- The heal loop of `loadClientsLocked` over all entries; `uuids` is the
supply of freshly generated UUIDs (`generateUUID`), consumed in order,
starting at index `idx`.  Returns the healed entries and the `changed`
flag. -/
def healEntries (clientsDir : String) (now : Int) (uuids : Nat → String) :
    Nat → List (String × Client) → List (String × Client) × Bool
  | _, [] => ([], false)
  | idx, (k, c) :: rest =>
    let r := healEntry clientsDir now (uuids idx) k c
    let idx2 := if goTrimSpace c.uuid = "" then idx + 1 else idx
    let r2 := healEntries clientsDir now uuids idx2 rest
    ((k, r.1) :: r2.1, r.2 || r2.2)

/-- The per-record normalization of `saveClientsLocked`
(manager.go:394-401): the embedded id is overwritten with the map key and
an empty config path is backfilled. -/
def normalizeRecord (clientsDir : String) (k : String) (c : Client) : Client :=
  let c1 := {c with id := k}
  if goTrimSpace c1.configPath = "" then
    {c1 with configPath := goFilepathJoin clientsDir (k ++ ".json")}
  else c1

/-- The `normalized` map that `saveClientsLocked` persists. -/
def normalizeClients (clientsDir : String) (m : List (String × Client)) :
    List (String × Client) :=
  m.map (fun kv => (kv.1, normalizeRecord clientsDir kv.1 kv.2))

theorem ne_empty_of_trim_ne {s : String} (h : goTrimSpace s ≠ "") : s ≠ "" := by
  intro he
  exact h (by rw [he]; rfl)

theorem string_append_ne_empty_right (a b : String) (h : b ≠ "") : a ++ b ≠ "" := by
  intro he
  apply h
  have hd : a.data ++ b.data = ([] : List Char) := by
    have h2 : (a ++ b).data = a.data ++ b.data := by cases a; cases b; rfl
    rw [he] at h2
    exact h2.symm
  have hb : b.data = [] := (List.append_eq_nil.mp hd).2
  cases b with
  | mk d => exact congrArg String.mk hb

theorem normalizeRecord_eq (clientsDir k : String) (c : Client) :
    normalizeRecord clientsDir k c =
      ⟨k, c.name, c.uuid, c.address,
       if goTrimSpace c.configPath = "" then goFilepathJoin clientsDir (k ++ ".json")
       else c.configPath,
       c.createdAt⟩ := by
  unfold normalizeRecord
  by_cases h : goTrimSpace c.configPath = ""
  · simp [h]
  · simp [h]

/-- C10: `saveClientsLocked` normalizes before persisting — in the
normalized map it writes out, every record's embedded id equals its map
key, every config path is non-empty (backfilled to
`<clientsDir>/<id>.json` exactly when the input's was blank), and the key
set is unchanged. -/
theorem saveNormalizes_claim (clientsDir : String) (m : List (String × Client)) :
    (normalizeClients clientsDir m).map Prod.fst = m.map Prod.fst ∧
    (∀ kv ∈ normalizeClients clientsDir m, kv.2.id = kv.1 ∧ kv.2.configPath ≠ "") ∧
    (∀ k c, (k, c) ∈ m →
      (k, normalizeRecord clientsDir k c) ∈ normalizeClients clientsDir m ∧
      (goTrimSpace c.configPath = "" →
        (normalizeRecord clientsDir k c).configPath =
          goFilepathJoin clientsDir (k ++ ".json")) ∧
      (goTrimSpace c.configPath ≠ "" →
        (normalizeRecord clientsDir k c).configPath = c.configPath)) := by
  refine ⟨?_, ?_, ?_⟩
  · unfold normalizeClients
    rw [List.map_map]
    rfl
  · intro kv hkv
    unfold normalizeClients at hkv
    rw [List.mem_map] at hkv
    obtain ⟨⟨k0, c0⟩, _hmem, hkv⟩ := hkv
    subst hkv
    rw [normalizeRecord_eq]
    refine ⟨rfl, ?_⟩
    by_cases h : goTrimSpace c0.configPath = ""
    · simp only [h, if_true]
      exact goFilepathJoin_ne_empty _ _
        (string_append_ne_empty_right _ _ (by decide))
    · simp only [h, if_false]
      exact ne_empty_of_trim_ne h
  · intro k c hmem
    refine ⟨?_, ?_, ?_⟩
    · unfold normalizeClients
      rw [List.mem_map]
      exact ⟨(k, c), hmem, rfl⟩
    · intro h
      rw [normalizeRecord_eq]
      simp [h]
    · intro h
      rw [normalizeRecord_eq]
      simp [h]


/-- Witness for C10: the membership and empty-config-path clauses apply
at a concrete one-record map. -/
theorem saveNormalizes_claim_witness :
    ("alice", normalizeRecord "/etc/vpn/clients" "alice" mkClient) ∈
      normalizeClients "/etc/vpn/clients" [("alice", mkClient)] ∧
    (normalizeRecord "/etc/vpn/clients" "alice" mkClient).configPath =
      goFilepathJoin "/etc/vpn/clients" ("alice" ++ ".json") :=
  ⟨((saveNormalizes_claim "/etc/vpn/clients" [("alice", mkClient)]).2.2 "alice" mkClient
      (List.Mem.head _)).1,
   ((saveNormalizes_claim "/etc/vpn/clients" [("alice", mkClient)]).2.2 "alice" mkClient
      (List.Mem.head _)).2.1 rfl⟩

/-- The first component of a heal step, written as an explicit record. -/
theorem healEntry_fst (clientsDir : String) (now : Int) (fresh k : String) (c : Client) :
    (healEntry clientsDir now fresh k c).1 =
      ⟨if goTrimSpace c.id = "" then k else c.id,
       if goTrimSpace c.name = "" then k else c.name,
       if goTrimSpace c.uuid = "" then fresh else c.uuid,
       if goTrimSpace c.address = ""
         then (if goTrimSpace c.uuid = "" then fresh else c.uuid) else c.address,
       if goTrimSpace c.configPath = ""
         then goFilepathJoin clientsDir
           ((if goTrimSpace c.id = "" then k else c.id) ++ ".json")
         else c.configPath,
       if c.createdAt = 0 then now else c.createdAt⟩ := rfl

theorem client_eq_of_fields {c1 c2 : Client} (h1 : c1.id = c2.id) (h2 : c1.name = c2.name)
    (h3 : c1.uuid = c2.uuid) (h4 : c1.address = c2.address)
    (h5 : c1.configPath = c2.configPath) (h6 : c1.createdAt = c2.createdAt) : c1 = c2 := by
  cases c1
  cases c2
  simp_all


/-- Modelled from the claim wording of the round-trip property (C5): how a
record read back after `Save` then `Load` relates to the record that was
saved under key `kc.1`: the id equals the key; blank optional fields are
backfilled deterministically (name from the key, uuid from the fresh
supply, address from the healed uuid, config path from
`<clientsDir>/<key>.json`, created-at from the load time); already
populated fields — and hence fully populated records — come back
unchanged. -/
def roundTripRel (clientsDir : String) (now : Int) (uuids : Nat → String) :
    (String × Client) → (String × Client) → Prop :=
  fun kc kc2 =>
    kc2.1 = kc.1 ∧
    kc2.2.id = kc.1 ∧
    (goTrimSpace kc.2.name ≠ "" → kc2.2.name = kc.2.name) ∧
    (goTrimSpace kc.2.name = "" → kc2.2.name = kc.1) ∧
    (goTrimSpace kc.2.uuid ≠ "" → kc2.2.uuid = kc.2.uuid) ∧
    (goTrimSpace kc.2.uuid = "" → ∃ j, kc2.2.uuid = uuids j) ∧
    (goTrimSpace kc.2.address ≠ "" → kc2.2.address = kc.2.address) ∧
    (goTrimSpace kc.2.address = "" → kc2.2.address = kc2.2.uuid) ∧
    (goTrimSpace kc.2.configPath ≠ "" → kc2.2.configPath = kc.2.configPath) ∧
    (goTrimSpace kc.2.configPath = "" →
      kc2.2.configPath = goFilepathJoin clientsDir (kc.1 ++ ".json")) ∧
    (kc.2.createdAt ≠ 0 → kc2.2.createdAt = kc.2.createdAt) ∧
    (kc.2.createdAt = 0 → kc2.2.createdAt = now) ∧
    (kc.2.id = kc.1 ∧ goTrimSpace kc.2.name ≠ "" ∧ goTrimSpace kc.2.uuid ≠ "" ∧
      goTrimSpace kc.2.address ≠ "" ∧ goTrimSpace kc.2.configPath ≠ "" ∧
      kc.2.createdAt ≠ 0 → kc2.2 = kc.2)

set_option maxHeartbeats 2000000 in
theorem healEntry_normalized_rel (clientsDir : String) (now : Int) (uuids : Nat → String)
    (idx : Nat) (k : String) (c : Client) :
    roundTripRel clientsDir now uuids (k, c)
      (k, (healEntry clientsDir now (uuids idx) k (normalizeRecord clientsDir k c)).1) := by
  rw [normalizeRecord_eq, healEntry_fst]
  refine ⟨rfl, ite_self k, ?_, ?_, ?_, ?_, ?_, ?_, ?_, ?_, ?_, ?_, ?_⟩
  · intro h
    show (if goTrimSpace c.name = "" then k else c.name) = c.name
    rw [if_neg h]
  · intro h
    show (if goTrimSpace c.name = "" then k else c.name) = k
    rw [if_pos h]
  · intro h
    show (if goTrimSpace c.uuid = "" then uuids idx else c.uuid) = c.uuid
    rw [if_neg h]
  · intro h
    refine ⟨idx, ?_⟩
    show (if goTrimSpace c.uuid = "" then uuids idx else c.uuid) = uuids idx
    rw [if_pos h]
  · intro h
    show (if goTrimSpace c.address = ""
      then (if goTrimSpace c.uuid = "" then uuids idx else c.uuid) else c.address) = c.address
    rw [if_neg h]
  · intro h
    show (if goTrimSpace c.address = ""
        then (if goTrimSpace c.uuid = "" then uuids idx else c.uuid) else c.address) =
      (if goTrimSpace c.uuid = "" then uuids idx else c.uuid)
    rw [if_pos h]
  · intro h
    show (if goTrimSpace (if goTrimSpace c.configPath = ""
            then goFilepathJoin clientsDir (k ++ ".json") else c.configPath) = ""
        then goFilepathJoin clientsDir ((if goTrimSpace k = "" then k else k) ++ ".json")
        else (if goTrimSpace c.configPath = ""
          then goFilepathJoin clientsDir (k ++ ".json") else c.configPath)) = c.configPath
    simp only [if_neg h]
  · intro h
    show (if goTrimSpace (if goTrimSpace c.configPath = ""
            then goFilepathJoin clientsDir (k ++ ".json") else c.configPath) = ""
        then goFilepathJoin clientsDir ((if goTrimSpace k = "" then k else k) ++ ".json")
        else (if goTrimSpace c.configPath = ""
          then goFilepathJoin clientsDir (k ++ ".json") else c.configPath)) =
      goFilepathJoin clientsDir (k ++ ".json")
    simp only [if_pos h, ite_self]
  · intro h
    show (if c.createdAt = 0 then now else c.createdAt) = c.createdAt
    rw [if_neg h]
  · intro h
    show (if c.createdAt = 0 then now else c.createdAt) = now
    rw [if_pos h]
  · intro hall
    obtain ⟨hid0, hname, huuid, haddr, hcp, hca⟩ := hall
    apply client_eq_of_fields
    · show (if goTrimSpace k = "" then k else k) = c.id
      rw [ite_self]
      exact hid0.symm
    · show (if goTrimSpace c.name = "" then k else c.name) = c.name
      rw [if_neg hname]
    · show (if goTrimSpace c.uuid = "" then uuids idx else c.uuid) = c.uuid
      rw [if_neg huuid]
    · show (if goTrimSpace c.address = ""
        then (if goTrimSpace c.uuid = "" then uuids idx else c.uuid) else c.address) = c.address
      rw [if_neg haddr]
    · show (if goTrimSpace (if goTrimSpace c.configPath = ""
            then goFilepathJoin clientsDir (k ++ ".json") else c.configPath) = ""
          then goFilepathJoin clientsDir ((if goTrimSpace k = "" then k else k) ++ ".json")
          else (if goTrimSpace c.configPath = ""
            then goFilepathJoin clientsDir (k ++ ".json") else c.configPath)) = c.configPath
      simp only [if_neg hcp]
    · show (if c.createdAt = 0 then now else c.createdAt) = c.createdAt
      rw [if_neg hca]

theorem healEntries_normalized_rel (clientsDir : String) (now : Int) (uuids : Nat → String)
    (m : List (String × Client)) :
    ∀ idx, List.Forall₂ (roundTripRel clientsDir now uuids) m
      (healEntries clientsDir now uuids idx (normalizeClients clientsDir m)).1 := by
  induction m with
  | nil => intro idx; exact List.Forall₂.nil
  | cons kc rest ih =>
    intro idx
    obtain ⟨k, c⟩ := kc
    show List.Forall₂ _ ((k, c) :: rest)
      (healEntries clientsDir now uuids idx
        ((k, normalizeRecord clientsDir k c) :: normalizeClients clientsDir rest)).1
    unfold healEntries
    exact List.Forall₂.cons (healEntry_normalized_rel clientsDir now uuids idx k c) (ih _)

/-- C5: the round-trip — `Save` persists the normalized map
(`normalizeClients`, embedded ids forced to the map keys), and a
subsequent `Load` returns its heal (`healEntries`); every record of the
result relates to the record that was saved under the same key by
`roundTripRel`: ids equal the keys, blank name/uuid/address/config-path
and zero created-at are backfilled deterministically, and records whose
fields were already populated come back unchanged. -/
theorem saveLoad_roundtrip_claim (clientsDir : String) (now : Int) (uuids : Nat → String)
    (m : List (String × Client)) (_hne : m ≠ []) :
    List.Forall₂ (roundTripRel clientsDir now uuids) m
      (healEntries clientsDir now uuids 0 (normalizeClients clientsDir m)).1 :=
  healEntries_normalized_rel clientsDir now uuids m 0

/-- Witness for C5 at a concrete one-record store. -/
theorem saveLoad_roundtrip_claim_witness :
    List.Forall₂ (roundTripRel "/etc/vpn/clients" 5 (fun _ => "11111111-1111-4111-8111-111111111111"))
      [("alice", mkClient)]
      (healEntries "/etc/vpn/clients" 5 (fun _ => "11111111-1111-4111-8111-111111111111") 0
        (normalizeClients "/etc/vpn/clients" [("alice", mkClient)])).1 :=
  saveLoad_roundtrip_claim "/etc/vpn/clients" 5
    (fun _ => "11111111-1111-4111-8111-111111111111") [("alice", mkClient)] (by simp)

/-! ## JSON text layer (encoding/json): parser, pretty printer -/

/-- JSON insignificant whitespace. -/
def jsonWSChar (c : Char) : Bool :=
  c == ' ' || c == '\t' || c == '\n' || c == '\r'

/-- Skip insignificant whitespace. -/
def jsonSkipWS (l : List Char) : List Char :=
  l.dropWhile jsonWSChar

/-- Four hex digits (for `\uXXXX` escapes). -/
def parse4Hex : List Char → Option (Nat × List Char)
  | a :: b :: c :: d :: rest =>
    match hexVal a, hexVal b, hexVal c, hexVal d with
    | some va, some vb, some vc, some vd =>
      some (va * 4096 + vb * 256 + vc * 16 + vd, rest)
    | _, _, _, _ => none
  | _ => none

/-- Decoded character of a `\uXXXX` (with possible surrogate pair);
returns the scalar and the remaining input.  An unpaired surrogate
becomes U+FFFD, as in `encoding/json`. -/
def decodeUnicodeEscape (l : List Char) : Option (Char × List Char) :=
  match parse4Hex l with
  | none => none
  | some (v, rest) =>
    if 0xD800 ≤ v && v ≤ 0xDBFF then
      match rest with
      | '\\' :: 'u' :: rest2 =>
        match parse4Hex rest2 with
        | some (w, rest3) =>
          if 0xDC00 ≤ w && w ≤ 0xDFFF then
            some (Char.ofNat (0x10000 + (v - 0xD800) * 0x400 + (w - 0xDC00)), rest3)
          else some (Char.ofNat 0xFFFD, rest)
        | none => some (Char.ofNat 0xFFFD, rest)
      | _ => some (Char.ofNat 0xFFFD, rest)
    else if 0xDC00 ≤ v && v ≤ 0xDFFF then some (Char.ofNat 0xFFFD, rest)
    else some (Char.ofNat v, rest)

/-- JSON string body (after the opening quote): content characters up to
the closing quote, with escapes decoded; raw control characters are
invalid.  Fuel dominates the input length. -/
def parseJStringBody : Nat → List Char → Option (List Char × List Char)
  | 0, _ => none
  | _ + 1, [] => none
  | fuel + 1, c :: rest =>
    if c = '"' then some ([], rest)
    else if c = '\\' then
      match rest with
      | [] => none
      | e :: rest2 =>
        if e = 'u' then
          match decodeUnicodeEscape rest2 with
          | none => none
          | some (ch, rest3) =>
            (parseJStringBody fuel rest3).map (fun p => (ch :: p.1, p.2))
        else
          let esc : Option Char :=
            if e = '"' then some '"'
            else if e = '\\' then some '\\'
            else if e = '/' then some '/'
            else if e = 'b' then some (Char.ofNat 8)
            else if e = 'f' then some (Char.ofNat 12)
            else if e = 'n' then some '\n'
            else if e = 'r' then some '\r'
            else if e = 't' then some '\t'
            else none
          match esc with
          | none => none
          | some ch => (parseJStringBody fuel rest2).map (fun p => (ch :: p.1, p.2))
    else if c.toNat < 0x20 then none
    else (parseJStringBody fuel rest).map (fun p => (c :: p.1, p.2))

/-- `10^e` as a rational, for signed exponents. -/
def ratPow10 (e : Int) : Rat :=
  if 0 ≤ e then ((10 : Rat) ^ e.toNat) else 1 / ((10 : Rat) ^ (-e).toNat)

/-- JSON number per RFC 8259: optional minus, integer part without
leading zeros, optional fraction, optional exponent. -/
def parseJNumber (l : List Char) : Option (Rat × List Char) :=
  let signSplit : Bool × List Char :=
    match l with
    | '-' :: r => (true, r)
    | _ => (false, l)
  let neg := signSplit.1
  let l1 := signSplit.2
  let intDigits := l1.takeWhile isDigitChar
  let l2 := l1.dropWhile isDigitChar
  if intDigits.isEmpty then none
  else if decide (1 < intDigits.length) && (intDigits.head? == some '0') then none
  else
    let fracSplit : Option (List Char) × List Char :=
      match l2 with
      | '.' :: r =>
        if (r.takeWhile isDigitChar).isEmpty then (none, l2)
        else (some (r.takeWhile isDigitChar), r.dropWhile isDigitChar)
      | _ => (some [], l2)
    match fracSplit.1 with
    | none => none
    | some fracDigits =>
      let l3 := fracSplit.2
      let expSplit : Option Int × List Char :=
        match l3 with
        | e :: r =>
          if e = 'e' || e = 'E' then
            let esign : Bool × List Char :=
              match r with
              | '+' :: r2 => (false, r2)
              | '-' :: r2 => (true, r2)
              | _ => (false, r)
            let eDigits := esign.2.takeWhile isDigitChar
            if eDigits.isEmpty then (none, l3)
            else
              let ev : Int := Int.ofNat (decDigitsVal eDigits)
              (some (if esign.1 then -ev else ev), esign.2.dropWhile isDigitChar)
          else (some 0, l3)
        | [] => (some 0, l3)
      match expSplit.1 with
      | none => none
      | some ev =>
        let mant : Rat := (decDigitsVal (intDigits ++ fracDigits) : Rat)
        let q := mant * ratPow10 (ev - (fracDigits.length : Int))
        some ((if neg then -q else q), expSplit.2)

/-- Parser task: a full value, the members of an object after the first
`{`, or the elements of an array after the first `[`. -/
inductive PMode where
  | value : PMode
  | objRest (acc : List (String × Json)) : PMode
  | arrRest (acc : List Json) : PMode

/-- Recursive-descent JSON parser (one fuel-structural function so that
it evaluates inside the kernel); fuel `2*length+4` dominates any input. -/
def parseJ : Nat → PMode → List Char → Option (Json × List Char)
  | 0, _, _ => none
  | fuel + 1, PMode.value, l0 =>
    match jsonSkipWS l0 with
    | [] => none
    | c :: rest =>
      if c = '{' then
        match jsonSkipWS rest with
        | '}' :: rest2 => some (Json.obj [], rest2)
        | l2 => parseJ fuel (PMode.objRest []) l2
      else if c = '[' then
        match jsonSkipWS rest with
        | ']' :: rest2 => some (Json.arr [], rest2)
        | l2 => parseJ fuel (PMode.arrRest []) l2
      else if c = '"' then
        (parseJStringBody (rest.length + 1) rest).map
          (fun p => (Json.str (String.mk p.1), p.2))
      else if c = 't' then
        match rest with
        | 'r' :: 'u' :: 'e' :: rest2 => some (Json.bool true, rest2)
        | _ => none
      else if c = 'f' then
        match rest with
        | 'a' :: 'l' :: 's' :: 'e' :: rest2 => some (Json.bool false, rest2)
        | _ => none
      else if c = 'n' then
        match rest with
        | 'u' :: 'l' :: 'l' :: rest2 => some (Json.null, rest2)
        | _ => none
      else if c = '-' || isDigitChar c then
        (parseJNumber (c :: rest)).map (fun p => (Json.num p.1, p.2))
      else none
  | fuel + 1, PMode.objRest acc, l0 =>
    match l0 with
    | '"' :: rest =>
      match parseJStringBody (rest.length + 1) rest with
      | none => none
      | some (kChars, rest2) =>
        match jsonSkipWS rest2 with
        | ':' :: rest3 =>
          match parseJ fuel PMode.value rest3 with
          | none => none
          | some (v, rest4) =>
            match jsonSkipWS rest4 with
            | ',' :: rest5 =>
              parseJ fuel (PMode.objRest (acc ++ [(String.mk kChars, v)]))
                (jsonSkipWS rest5)
            | '}' :: rest5 => some (Json.obj (acc ++ [(String.mk kChars, v)]), rest5)
            | _ => none
        | _ => none
    | _ => none
  | fuel + 1, PMode.arrRest acc, l0 =>
    match parseJ fuel PMode.value l0 with
    | none => none
    | some (v, rest) =>
      match jsonSkipWS rest with
      | ',' :: rest2 => parseJ fuel (PMode.arrRest (acc ++ [v])) rest2
      | ']' :: rest2 => some (Json.arr (acc ++ [v]), rest2)
      | _ => none

/-- `json.Unmarshal`-style validity and parse of a whole input: one JSON
value with only whitespace around it. -/
def jsonParse (s : String) : Option Json :=
  match parseJ (2 * s.data.length + 4) PMode.value s.data with
  | none => none
  | some (j, rest) => if (jsonSkipWS rest).isEmpty then some j else none

/-! ## Decoding the persisted client map (json.Unmarshal into map[string]Client) -/

/-- Leap year (Gregorian). -/
def isLeapYear (y : Int) : Bool :=
  (y % 4 == 0 && y % 100 != 0) || y % 400 == 0

/-- Days in a month. -/
def daysInMonth (y : Int) (m : Nat) : Nat :=
  if m = 2 then (if isLeapYear y then 29 else 28)
  else if m = 4 || m = 6 || m = 9 || m = 11 then 30
  else 31

/-- Days since 1970-01-01 of a civil date (Howard Hinnant's algorithm, as
used by Go's `time` package internally). -/
def daysFromCivil (y : Int) (m d : Nat) : Int :=
  let y2 := if m ≤ 2 then y - 1 else y
  let era := (if 0 ≤ y2 then y2 else y2 - 399) / 400
  let yoe := y2 - era * 400
  let mp : Int := (m : Int) + (if 2 < m then -3 else 9)
  let doy := (153 * mp + 2) / 5 + (d : Int) - 1
  let doe := yoe * 365 + yoe / 4 - yoe / 100 + doy
  era * 146097 + doe - 719468

/-- Nanoseconds since Go's zero time (0001-01-01T00:00:00 UTC) of a civil
datetime with a UTC offset in seconds. -/
def goInstant (y : Int) (mo d hh mi ss : Nat) (nanos : Nat) (offsetSec : Int) : Int :=
  ((daysFromCivil y mo d - daysFromCivil 1 1 1) * 86400 +
    (hh : Int) * 3600 + (mi : Int) * 60 + (ss : Int) - offsetSec) * 1000000000 + (nanos : Int)

/-- Two decimal digits. -/
def twoDigits (a b : Char) : Option Nat :=
  if isDigitChar a && isDigitChar b then some (dvalChar a * 10 + dvalChar b) else none

/-- `time.Time.UnmarshalJSON` body: parse an RFC 3339 timestamp (with
optional fractional seconds and `Z` or `±hh:mm` offset) into the
nanosecond instant of the model. -/
def parseRFC3339 (s : String) : Option Int :=
  match s.data with
  | y1 :: y2 :: y3 :: y4 :: '-' :: m1 :: m2 :: '-' :: d1 :: d2 :: 'T' ::
    h1 :: h2 :: ':' :: mi1 :: mi2 :: ':' :: s1 :: s2 :: rest =>
    if ([y1, y2, y3, y4].all isDigitChar) then
      match twoDigits m1 m2, twoDigits d1 d2, twoDigits h1 h2,
            twoDigits mi1 mi2, twoDigits s1 s2 with
      | some mo, some d, some hh, some mi, some ss =>
        let y : Int := Int.ofNat (decDigitsVal [y1, y2, y3, y4])
        if 1 ≤ mo && mo ≤ 12 && 1 ≤ d && d ≤ daysInMonth y mo &&
           hh ≤ 23 && mi ≤ 59 && ss ≤ 59 then
          let fracSplit : Nat × List Char :=
            match rest with
            | '.' :: fr =>
              let ds := fr.takeWhile isDigitChar
              if ds.isEmpty then (0, rest)
              else (decDigitsVal (ds.take 9) * 10 ^ (9 - min 9 ds.length),
                    fr.dropWhile isDigitChar)
            | _ => (0, rest)
          let nanos := fracSplit.1
          match fracSplit.2 with
          | ['Z'] => some (goInstant y mo d hh mi ss nanos 0)
          | sign :: o1 :: o2 :: ':' :: o3 :: o4 :: [] =>
            if sign = '+' || sign = '-' then
              match twoDigits o1 o2, twoDigits o3 o4 with
              | some oh, some om =>
                if oh ≤ 23 && om ≤ 59 then
                  let off : Int := (oh : Int) * 3600 + (om : Int) * 60
                  some (goInstant y mo d hh mi ss nanos (if sign = '-' then -off else off))
                else none
              | _, _ => none
            else none
          | _ => none
        else none
      | _, _, _, _, _ => none
    else none
  | _ => none

/-- Decode one string-typed struct field: a JSON string sets it, `null`
leaves it, anything else is a type error. -/
def decodeStringField (cur : String) (j : Json) : Option String :=
  match j with
  | Json.str s => some s
  | Json.null => some cur
  | _ => none

/-- Decode the `created_at` field (`time.Time`): a quoted RFC 3339 string
or `null`. -/
def decodeTimeField (cur : Int) (j : Json) : Option Int :=
  match j with
  | Json.str s => parseRFC3339 s
  | Json.null => some cur
  | _ => none

/-- Process one JSON object member into a `Client` under construction;
field names are matched case-insensitively as `encoding/json` does
(exact-match preference is immaterial here since no two field tags
collide modulo case), unknown members are ignored. -/
def decodeClientEntry (c : Client) (kv : String × Json) : Option Client :=
  let k := goToLower kv.1
  if k = "id" then (decodeStringField c.id kv.2).map (fun s => {c with id := s})
  else if k = "name" then (decodeStringField c.name kv.2).map (fun s => {c with name := s})
  else if k = "uuid" then (decodeStringField c.uuid kv.2).map (fun s => {c with uuid := s})
  else if k = "address" then
    (decodeStringField c.address kv.2).map (fun s => {c with address := s})
  else if k = "config_path" then
    (decodeStringField c.configPath kv.2).map (fun s => {c with configPath := s})
  else if k = "created_at" then
    (decodeTimeField c.createdAt kv.2).map (fun t => {c with createdAt := t})
  else some c

/-- `json.Unmarshal` of one client record: an object processed member by
member over the zero record; `null` is a no-op. -/
def decodeClient (j : Json) : Option Client :=
  match j with
  | Json.obj kvs => kvs.foldlM decodeClientEntry mkClient
  | Json.null => some mkClient
  | _ => none

/-- `json.Unmarshal` of the whole document into `map[string]Client`:
the top level must be an object (or `null`, which leaves the map empty);
later duplicate keys overwrite earlier ones. -/
def decodeClientMap (j : Json) : Option (List (String × Client)) :=
  match j with
  | Json.obj kvs =>
    kvs.foldlM (fun m kv => (decodeClient kv.2).map (fun c => assocInsert m kv.1 c)) []
  | Json.null => some []
  | _ => none

/-- Load failures of the client store. -/
inductive LoadErr where
  | parseErr : LoadErr
deriving Repr, DecidableEq

/-- `loadClientsLocked` (manager.go:334-391) on the state file's content:
`none` models a missing file (`os.IsNotExist`), which is not an error and
yields the empty map; whitespace-only content yields the empty map;
anything `json.Unmarshal` rejects is a parse error; otherwise the decoded
map is healed (`healEntries`), returning the map and whether a re-save is
due. -/
def loadClientsRaw (clientsDir : String) (now : Int) (uuids : Nat → String)
    (raw : Option String) : Except LoadErr (List (String × Client) × Bool) :=
  match raw with
  | none => Except.ok ([], false)
  | some s =>
    if goTrimSpace s = "" then Except.ok ([], false)
    else
      match jsonParse s with
      | none => Except.error LoadErr.parseErr
      | some j =>
        match decodeClientMap j with
        | none => Except.error LoadErr.parseErr
        | some m => Except.ok (healEntries clientsDir now uuids 0 m)

/-- C4: a missing state file yields the empty map and no error; a file of
only whitespace yields the empty map and no error; and content rejected
by the JSON parser is a `ParseError` — no map is returned, so a corrupt
file can never silently produce a partial map. -/
theorem loadClients_claim (clientsDir : String) (now : Int) (uuids : Nat → String) :
    loadClientsRaw clientsDir now uuids none = Except.ok ([], false) ∧
    (∀ s : String, goTrimSpace s = "" →
      loadClientsRaw clientsDir now uuids (some s) = Except.ok ([], false)) ∧
    (∀ s : String, goTrimSpace s ≠ "" → jsonParse s = none →
      loadClientsRaw clientsDir now uuids (some s) = Except.error LoadErr.parseErr) := by
  refine ⟨rfl, ?_, ?_⟩
  · intro s h
    simp only [loadClientsRaw, if_pos h]
  · intro s h hp
    simp only [loadClientsRaw, if_neg h, hp]

/-- Witness for C4: the empty-content and malformed-content clauses apply
at concrete inputs (a whitespace-only file and a lone `{`). -/
theorem loadClients_claim_witness :
    loadClientsRaw "/etc/vpn/clients" 5 (fun _ => "u-1") (some "  \n") =
      Except.ok ([], false) ∧
    loadClientsRaw "/etc/vpn/clients" 5 (fun _ => "u-1") (some "\x7b\"bad\"") =
      Except.error LoadErr.parseErr :=
  ⟨(loadClients_claim "/etc/vpn/clients" 5 (fun _ => "u-1")).2.1 "  \n" rfl,
   (loadClients_claim "/etc/vpn/clients" 5 (fun _ => "u-1")).2.2 "\x7b\"bad\""
     (by decide) rfl⟩

/-! ## json.MarshalIndent pretty printer and the client-map encoder -/

/-- Indentation of `json.MarshalIndent(v, "", "  ")` at nesting depth
`n`. -/
def indentChars (n : Nat) : List Char :=
  List.replicate (2 * n) ' '

/-- `encoding/json` string escaping (with the default HTML escaping of
`<`, `>`, `&`, and the U+2028/U+2029 escapes). -/
def jsonEscapeChar (c : Char) : List Char :=
  if c = '"' then ['\\', '"']
  else if c = '\\' then ['\\', '\\']
  else if c = '\n' then ['\\', 'n']
  else if c = '\r' then ['\\', 'r']
  else if c = '\t' then ['\\', 't']
  else if c.toNat < 0x20 then
    ['\\', 'u', '0', '0', hexDigitChar (c.toNat / 16), hexDigitChar (c.toNat % 16)]
  else if c = '<' then ['\\', 'u', '0', '0', '3', 'c']
  else if c = '>' then ['\\', 'u', '0', '0', '3', 'e']
  else if c = '&' then ['\\', 'u', '0', '0', '2', '6']
  else if c.toNat = 0x2028 then ['\\', 'u', '2', '0', '2', '8']
  else if c.toNat = 0x2029 then ['\\', 'u', '2', '0', '2', '9']
  else [c]

/-- A quoted, escaped JSON string. -/
def jsonQuote (s : String) : List Char :=
  '"' :: s.data.foldr (fun c acc => jsonEscapeChar c ++ acc) ['"']

/-- Array elements of `MarshalIndent`, one per line, comma-separated;
the element printer is passed in. -/
def printJItems (pv : Json → List Char) (ind : Nat) : List Json → List Char
  | [] => []
  | [x] => indentChars ind ++ pv x
  | x :: y :: rest =>
    indentChars ind ++ pv x ++ ',' :: '\n' :: printJItems pv ind (y :: rest)

/-- Object members of `MarshalIndent`, one per line, comma-separated. -/
def printJFields (pv : Json → List Char) (ind : Nat) : List (String × Json) → List Char
  | [] => []
  | [(k, v)] => indentChars ind ++ jsonQuote k ++ ':' :: ' ' :: pv v
  | (k, v) :: kv2 :: rest =>
    indentChars ind ++ jsonQuote k ++ ':' :: ' ' :: pv v ++
      ',' :: '\n' :: printJFields pv ind (kv2 :: rest)

/-- `json.MarshalIndent(v, "", "  ")`; the fuel bounds only the nesting
depth (every document this program builds nests at most six levels).
Only integral numbers occur in those documents, so `Json.num` prints its
integer value. -/
def printJVal : Nat → Nat → Json → List Char
  | 0, _, _ => []
  | fuel + 1, ind, j =>
    match j with
    | Json.null => ['n', 'u', 'l', 'l']
    | Json.bool true => ['t', 'r', 'u', 'e']
    | Json.bool false => ['f', 'a', 'l', 's', 'e']
    | Json.num q => if q.den = 1 then (toString q.num).data else (toString q).data
    | Json.str s => jsonQuote s
    | Json.arr [] => ['[', ']']
    | Json.arr (x :: xs) =>
      '[' :: '\n' ::
        (printJItems (printJVal fuel (ind + 1)) (ind + 1) (x :: xs) ++
          '\n' :: indentChars ind ++ [']'])
    | Json.obj [] => ['{', '\x7d']
    | Json.obj (kv :: kvs) =>
      '{' :: '\n' ::
        (printJFields (printJVal fuel (ind + 1)) (ind + 1) (kv :: kvs) ++
          '\n' :: indentChars ind ++ ['\x7d'])

/-- `marshalPretty` (manager.go:812-821): indent with two spaces and
guarantee a trailing newline. -/
def marshalPretty (j : Json) : String :=
  let raw := printJVal 1000 0 j
  String.mk (if raw.getLast? = some '\n' then raw else raw ++ ['\n'])

/-- Civil date of a day count since 1970-01-01 (inverse of
`daysFromCivil`). -/
def civilFromDays (z0 : Int) : Int × Nat × Nat :=
  let z := z0 + 719468
  let era := (if 0 ≤ z then z else z - 146096) / 146097
  let doe := z - era * 146097
  let yoe := (doe - doe / 1460 + doe / 36524 - doe / 146096) / 365
  let y := yoe + era * 400
  let doy := doe - (365 * yoe + yoe / 4 - yoe / 100)
  let mp := (5 * doy + 2) / 153
  let d := (doy - (153 * mp + 2) / 5 + 1).toNat
  let m := (if mp < 10 then mp + 3 else mp - 9).toNat
  ((if 2 < m then y else y + 1), m, d)

/-- Fixed-width decimal text. -/
def padNum (width v : Nat) : List Char :=
  let ds := (Nat.repr v).data
  List.replicate (width - ds.length) '0' ++ ds

/-- `time.Time.MarshalJSON` content: RFC 3339 text (UTC, with the
trailing zeros of the fractional second trimmed, as RFC3339Nano does). -/
def fmtRFC3339Nano (t : Int) : String :=
  let secs0 := t / 1000000000
  let nanos0 := t % 1000000000
  let secs := if nanos0 < 0 then secs0 - 1 else secs0
  let nanos := (if nanos0 < 0 then nanos0 + 1000000000 else nanos0).toNat
  let days := (if 0 ≤ secs then secs else secs - 86399) / 86400
  let sod := (secs - days * 86400).toNat
  let ymd := civilFromDays (days + daysFromCivil 1 1 1)
  let frac :=
    if nanos = 0 then []
    else '.' :: ((padNum 9 nanos).reverse.dropWhile (fun c => c == '0')).reverse
  String.mk (padNum 4 ymd.1.toNat ++ '-' :: padNum 2 ymd.2.1 ++ '-' :: padNum 2 ymd.2.2 ++
    'T' :: padNum 2 (sod / 3600) ++ ':' :: padNum 2 (sod / 60 % 60) ++
    ':' :: padNum 2 (sod % 60) ++ frac ++ ['Z'])

/-- JSON encoding of one client record (`type Client struct` field tags,
in struct order; `address` carries `omitempty`). -/
def encodeClient (c : Client) : Json :=
  Json.obj ([("id", Json.str c.id), ("name", Json.str c.name), ("uuid", Json.str c.uuid)] ++
    (if c.address = "" then [] else [("address", Json.str c.address)]) ++
    [("config_path", Json.str c.configPath),
     ("created_at", Json.str (fmtRFC3339Nano c.createdAt))])

/-- JSON encoding of the whole client map (a Go map), keyed by id. -/
def encodeClientMap (m : List (String × Client)) : Json :=
  jmap (m.map (fun kv => (kv.1, encodeClient kv.2)))

/-! ## Claim C6: writeSecretFile and the persisted document -/

/-- The filesystem: contents and permission mode per path. -/
def FS := String → Option (String × Nat)

/-- Point update of the filesystem. -/
def fsSet (fs : FS) (p : String) (v : Option (String × Nat)) : FS :=
  fun q => if q = p then v else fs q

/-- Which of the steps of `writeSecretFile` succeed, and the bytes left
in the temporary file when the write itself fails midway. -/
structure WriteOracle where
  mkdirOk : Bool
  writeOk : Bool
  chmodOk : Bool
  renameOk : Bool
  partialContent : String

/-- `writeSecretFile` (manager.go:823-835): ensure the directory, write
the content to the sibling `.tmp` path with mode `0600`, chmod it, and
rename it over the target.  Returns whether every step succeeded and the
resulting filesystem. -/
def writeSecretFile (fs : FS) (path content : String) (o : WriteOracle) : Bool × FS :=
  if !o.mkdirOk then (false, fs)
  else
    let tmpPath := path ++ ".tmp"
    if !o.writeOk then (false, fsSet fs tmpPath (some (o.partialContent, 0o600)))
    else
      let fs1 := fsSet fs tmpPath (some (content, 0o600))
      if !o.chmodOk then (false, fs1)
      else if !o.renameOk then (false, fs1)
      else (true, fsSet (fsSet fs1 path (some (content, 0o600))) tmpPath none)

theorem tmpPath_ne (path : String) : path ++ ".tmp" ≠ path := by
  intro he
  have hd : (path ++ ".tmp").data = path.data ++ (".tmp" : String).data := by
    cases path; rfl
  have hlen := congrArg (fun l => l.length) (he ▸ hd)
  simp at hlen

theorem marshalPretty_trailing_newline (j : Json) :
    (marshalPretty j).data.getLast? = some '\n' := by
  show (if (printJVal 1000 0 j).getLast? = some '\n' then printJVal 1000 0 j
      else printJVal 1000 0 j ++ ['\n']).getLast? = some '\n'
  by_cases h : (printJVal 1000 0 j).getLast? = some '\n'
  · rw [if_pos h]
    exact h
  · rw [if_neg h]
    exact List.getLast?_concat _

theorem insertSorted_perm (kv : String × Json) (l : List (String × Json)) :
    (insertSorted kv l).Perm (kv :: l) := by
  induction l with
  | nil => exact List.Perm.refl _
  | cons kv2 rest ih =>
    unfold insertSorted
    by_cases h : goStringLt kv.1 kv2.1 = true
    · rw [if_pos h]
    · rw [if_neg h]
      exact (List.Perm.cons kv2 ih).trans (List.Perm.swap kv kv2 rest)

theorem sortByKey_perm (l : List (String × Json)) : (sortByKey l).Perm l := by
  induction l with
  | nil => exact List.Perm.refl _
  | cons kv rest ih =>
    show (insertSorted kv (sortByKey rest)).Perm (kv :: rest)
    exact (insertSorted_perm kv (sortByKey rest)).trans (List.Perm.cons kv ih)

/-- C6: `saveClientsLocked` persists
`marshalPretty (encodeClientMap (normalizeClients …))` through
`writeSecretFile`: (1) the content always carries a terminating newline;
(2) at the document's top level the member keys are exactly the client
map's ids (in sorted order, as `MarshalIndent` emits map keys); (3) when
every step succeeds, the target file holds exactly that content with
owner-only mode `0600` and the temporary file is gone; (4) when the
directory, write, or chmod step fails — any step before the rename — the
call reports failure and the previously persisted target file is left
byte-for-byte unchanged. -/
theorem writeSecretFile_claim (clientsDir : String) (m : List (String × Client))
    (fs : FS) (path : String) (o : WriteOracle) :
    ((marshalPretty (encodeClientMap (normalizeClients clientsDir m))).data.getLast? =
      some '\n') ∧
    (∃ entries, encodeClientMap (normalizeClients clientsDir m) = Json.obj entries ∧
      (entries.map Prod.fst).Perm (m.map Prod.fst)) ∧
    (o.mkdirOk = true → o.writeOk = true → o.chmodOk = true → o.renameOk = true →
      writeSecretFile fs path
          (marshalPretty (encodeClientMap (normalizeClients clientsDir m))) o =
        (true,
          fsSet (fsSet (fsSet fs (path ++ ".tmp")
              (some (marshalPretty (encodeClientMap (normalizeClients clientsDir m)), 0o600)))
            path (some (marshalPretty (encodeClientMap (normalizeClients clientsDir m)), 0o600)))
            (path ++ ".tmp") none) ∧
      (writeSecretFile fs path
          (marshalPretty (encodeClientMap (normalizeClients clientsDir m))) o).2 path =
        some (marshalPretty (encodeClientMap (normalizeClients clientsDir m)), 0o600)) ∧
    (o.mkdirOk = false ∨ o.writeOk = false ∨ o.chmodOk = false →
      (writeSecretFile fs path
          (marshalPretty (encodeClientMap (normalizeClients clientsDir m))) o).1 = false ∧
      (writeSecretFile fs path
          (marshalPretty (encodeClientMap (normalizeClients clientsDir m))) o).2 path =
        fs path) := by
  refine ⟨marshalPretty_trailing_newline _, ?_, ?_, ?_⟩
  · have henc : encodeClientMap (normalizeClients clientsDir m) =
        Json.obj (sortByKey ((normalizeClients clientsDir m).map
          (fun kv => (kv.1, encodeClient kv.2)))) := rfl
    refine ⟨_, henc, ?_⟩
    have h1 := (sortByKey_perm ((normalizeClients clientsDir m).map
      (fun kv => (kv.1, encodeClient kv.2)))).map Prod.fst
    apply h1.trans
    rw [List.map_map]
    have h2 : (Prod.fst ∘ fun kv : String × Client => (kv.1, encodeClient kv.2)) =
        (Prod.fst : String × Client → String) := by
      funext kv
      rfl
    rw [h2]
    show (List.map Prod.fst
        (m.map (fun kv => (kv.1, normalizeRecord clientsDir kv.1 kv.2)))).Perm
      (List.map Prod.fst m)
    rw [List.map_map]
    have h3 : (Prod.fst ∘ fun kv : String × Client =>
        (kv.1, normalizeRecord clientsDir kv.1 kv.2)) =
        (Prod.fst : String × Client → String) := by
      funext kv
      rfl
    rw [h3]
  · intro h1 h2 h3 h4
    constructor
    · unfold writeSecretFile
      rw [h1, h2, h3, h4]
      rfl
    · unfold writeSecretFile
      rw [h1, h2, h3, h4]
      show fsSet (fsSet (fsSet fs (path ++ ".tmp") _) path _) (path ++ ".tmp") none path = _
      unfold fsSet
      rw [if_neg (fun he => tmpPath_ne path he.symm), if_pos rfl]
  · intro hfail
    have hgoal : ∀ res : Bool × FS,
        (res.1 = false ∧ res.2 path = fs path) →
        res.1 = false ∧ res.2 path = fs path := fun _ h => h
    rcases hfail with h | h | h
    · constructor
      · unfold writeSecretFile
        rw [h]
        rfl
      · unfold writeSecretFile
        rw [h]
        rfl
    · by_cases hm : o.mkdirOk = true
      · constructor
        · unfold writeSecretFile
          rw [hm, h]
          rfl
        · unfold writeSecretFile
          rw [hm, h]
          show fsSet fs (path ++ ".tmp") (some (o.partialContent, 0o600)) path = fs path
          unfold fsSet
          rw [if_neg (fun he => tmpPath_ne path he.symm)]
      · have hm2 : o.mkdirOk = false := by
          cases ho : o.mkdirOk
          · rfl
          · exact absurd ho hm
        constructor
        · unfold writeSecretFile
          rw [hm2]
          rfl
        · unfold writeSecretFile
          rw [hm2]
          rfl
    · by_cases hm : o.mkdirOk = true
      · by_cases hw : o.writeOk = true
        · constructor
          · unfold writeSecretFile
            rw [hm, hw, h]
            rfl
          · unfold writeSecretFile
            rw [hm, hw, h]
            show fsSet fs (path ++ ".tmp") (some (marshalPretty
              (encodeClientMap (normalizeClients clientsDir m)), 0o600)) path = fs path
            unfold fsSet
            rw [if_neg (fun he => tmpPath_ne path he.symm)]
        · have hw2 : o.writeOk = false := by
            cases ho : o.writeOk
            · rfl
            · exact absurd ho hw
          constructor
          · unfold writeSecretFile
            rw [hm, hw2]
            rfl
          · unfold writeSecretFile
            rw [hm, hw2]
            show fsSet fs (path ++ ".tmp") (some (o.partialContent, 0o600)) path = fs path
            unfold fsSet
            rw [if_neg (fun he => tmpPath_ne path he.symm)]
      · have hm2 : o.mkdirOk = false := by
          cases ho : o.mkdirOk
          · rfl
          · exact absurd ho hm
        constructor
        · unfold writeSecretFile
          rw [hm2]
          rfl
        · unfold writeSecretFile
          rw [hm2]
          rfl

/-- Witness for C6: the success clause and a failing-write clause apply
at a concrete filesystem and oracle. -/
theorem writeSecretFile_claim_witness :
    (writeSecretFile (fun _ => none) "/etc/vpn/clients/clients.json"
        (marshalPretty (encodeClientMap (normalizeClients "/etc/vpn/clients"
          [("alice", mkClient)]))) ⟨true, true, true, true, ""⟩).2
      "/etc/vpn/clients/clients.json" =
      some (marshalPretty (encodeClientMap (normalizeClients "/etc/vpn/clients"
        [("alice", mkClient)])), 0o600) ∧
    (writeSecretFile (fun _ => none) "/etc/vpn/clients/clients.json"
        (marshalPretty (encodeClientMap (normalizeClients "/etc/vpn/clients"
          [("alice", mkClient)]))) ⟨true, false, true, true, "par"⟩).2
      "/etc/vpn/clients/clients.json" = none :=
  ⟨((writeSecretFile_claim "/etc/vpn/clients" [("alice", mkClient)] (fun _ => none)
      "/etc/vpn/clients/clients.json" ⟨true, true, true, true, ""⟩).2.2.1
      rfl rfl rfl rfl).2,
   ((writeSecretFile_claim "/etc/vpn/clients" [("alice", mkClient)] (fun _ => none)
      "/etc/vpn/clients/clients.json" ⟨true, false, true, true, "par"⟩).2.2.2
      (Or.inr (Or.inl rfl))).2⟩

/-! ## Claim C8: GetClientConfig -/

/-- Actions on the data-plane supervisor (`startInterfaceLocked`,
`stopInterfaceLocked`) an operation may perform. -/
inductive SupervisorAction where
  | stop : SupervisorAction
  | start : SupervisorAction
deriving Repr, DecidableEq

/-- Errors surfaced by `GetClientConfig`. -/
inductive GetCfgErr where
  | loadErr : LoadErr → GetCfgErr
  | notFound : GetCfgErr
  | readErr : GetCfgErr
deriving Repr, DecidableEq

/-- A `writeSecretFile` call whose every step succeeds. -/
def writeFileOk (fs : FS) (path content : String) : FS :=
  (writeSecretFile fs path content ⟨true, true, true, true, ""⟩).2

/-- `loadClientsLocked` including its side effect: a map the heal loop
changed is immediately re-saved through `saveClientsLocked`
(manager.go:384-388); writes are taken to succeed. -/
def loadStep (clientsDir statePath : String) (now : Int)
    (uuids : Nat → String) (fs : FS) :
    Except LoadErr (List (String × Client)) × FS :=
  match loadClientsRaw clientsDir now uuids ((fs statePath).map Prod.fst) with
  | Except.error e => (Except.error e, fs)
  | Except.ok (m, changed) =>
    if changed then
      (Except.ok m, writeFileOk fs statePath
        (marshalPretty (encodeClientMap (normalizeClients clientsDir m))))
    else (Except.ok m, fs)

/-- `GetClientConfig` (manager.go:177-200): load (and possibly heal and
re-save) the store, look up the id — `os.ErrNotExist` when absent —
rewrite that client's document through `writeClientConfigLocked`, and
read the rewritten file back.  Writes are taken to succeed; the third
component records every stop or start of the data-plane process the
operation performs. -/
def getClientConfig (cfg : Config) (clientsDir statePath : String) (now : Int)
    (uuids : Nat → String) (fs : FS) (clientID : String) :
    Except GetCfgErr (Client × String) × FS × List SupervisorAction :=
  match loadStep clientsDir statePath now uuids fs with
  | (Except.error e, fs1) => (Except.error (GetCfgErr.loadErr e), fs1, [])
  | (Except.ok m, fs1) =>
    match assocFind m clientID with
    | none => (Except.error GetCfgErr.notFound, fs1, [])
    | some c =>
      let fs2 := writeFileOk fs1 c.configPath
        (marshalPretty (buildClientConfigMap cfg c))
      match fs2 c.configPath with
      | none => (Except.error GetCfgErr.readErr, fs2, [])
      | some f => (Except.ok (c, f.1), fs2, [])

theorem writeFileOk_self (fs : FS) (path content : String) :
    writeFileOk fs path content path = some (content, 0o600) := by
  show fsSet (fsSet (fsSet fs (path ++ ".tmp") (some (content, 0o600))) path
      (some (content, 0o600))) (path ++ ".tmp") none path = some (content, 0o600)
  unfold fsSet
  rw [if_neg (fun he => tmpPath_ne path he.symm), if_pos rfl]

theorem writeFileOk_frame (fs : FS) (path content : String) (p : String)
    (h1 : p ≠ path) (h2 : p ≠ path ++ ".tmp") :
    writeFileOk fs path content p = fs p := by
  show fsSet (fsSet (fsSet fs (path ++ ".tmp") (some (content, 0o600))) path
      (some (content, 0o600))) (path ++ ".tmp") none p = fs p
  unfold fsSet
  rw [if_neg h2, if_neg h1, if_neg h2]

/-- C8: once the store loads as map `m` with post-load filesystem `fs1`,
`GetClientConfig(id)` (1) returns `os.ErrNotExist` exactly when `id` is
absent from `m`; (2) when the record `c` is present — whatever the prior
content of `c.configPath`, stale or deleted — it returns `c` together
with the freshly generated document `marshalPretty
(buildClientConfigMap cfg c)`, leaves that very content installed at
`c.configPath`, and touches no path other than that file and its
temporary sibling; and (3) it performs no stop or start of the
data-plane process. -/
theorem getClientConfig_claim (cfg : Config) (clientsDir statePath : String)
    (now : Int) (uuids : Nat → String) (fs : FS) (clientID : String)
    (m : List (String × Client)) (fs1 : FS)
    (hload : loadStep clientsDir statePath now uuids fs = (Except.ok m, fs1)) :
    ((getClientConfig cfg clientsDir statePath now uuids fs clientID).1 =
        Except.error GetCfgErr.notFound ↔ assocFind m clientID = none) ∧
    (∀ c, assocFind m clientID = some c →
      getClientConfig cfg clientsDir statePath now uuids fs clientID =
        (Except.ok (c, marshalPretty (buildClientConfigMap cfg c)),
         writeFileOk fs1 c.configPath (marshalPretty (buildClientConfigMap cfg c)),
         []) ∧
      writeFileOk fs1 c.configPath (marshalPretty (buildClientConfigMap cfg c))
          c.configPath =
        some (marshalPretty (buildClientConfigMap cfg c), 0o600) ∧
      (∀ p, p ≠ c.configPath → p ≠ c.configPath ++ ".tmp" →
        writeFileOk fs1 c.configPath (marshalPretty (buildClientConfigMap cfg c)) p =
          fs1 p)) ∧
    (getClientConfig cfg clientsDir statePath now uuids fs clientID).2.2 = [] := by
  refine ⟨?_, ?_, ?_⟩
  · cases hfind : assocFind m clientID with
    | none =>
      simp only [getClientConfig, hload, hfind]
    | some c =>
      simp only [getClientConfig, hload, hfind, writeFileOk_self]
      simp
  · intro c hfind
    refine ⟨?_, writeFileOk_self _ _ _, fun p h1 h2 => writeFileOk_frame _ _ _ p h1 h2⟩
    simp only [getClientConfig, hload, hfind, writeFileOk_self]
  · cases hfind : assocFind m clientID with
    | none =>
      simp only [getClientConfig, hload, hfind]
    | some c =>
      simp only [getClientConfig, hload, hfind, writeFileOk_self]

/-- The state path used by the C8 witness. -/
def statePathW : String := "/etc/vpn/clients/clients.json"

/-- A filesystem whose state file holds one client record with every
optional field missing. -/
def fsStoreW : FS :=
  fun p => if p = statePathW then some ("\x7b\"alice\": \x7b\x7d\x7d", 0o600) else none

/-- The record `{"alice": {}}` heals to. -/
def cAliceW : Client :=
  ⟨"alice", "alice", "u-1", "u-1", "/etc/vpn/clients/alice.json", 5⟩

/-- Witness for C8: on an empty filesystem the lookup misses and the
call returns `os.ErrNotExist`; on a store holding `alice` the call
returns the healed record with its freshly generated document. -/
theorem getClientConfig_claim_witness :
    (getClientConfig (testConfig "vpn.example.com") "/etc/vpn/clients" statePathW 5
        (fun _ => "u-1") (fun _ => none) "alice").1 =
      Except.error GetCfgErr.notFound ∧
    (getClientConfig (testConfig "vpn.example.com") "/etc/vpn/clients" statePathW 5
        (fun _ => "u-1") fsStoreW "alice").1 =
      Except.ok (cAliceW, marshalPretty (buildClientConfigMap
        (testConfig "vpn.example.com") cAliceW)) :=
  ⟨(getClientConfig_claim (testConfig "vpn.example.com") "/etc/vpn/clients" statePathW 5
      (fun _ => "u-1") (fun _ => none) "alice" [] (fun _ => none) rfl).1.mpr rfl,
   congrArg Prod.fst
     ((getClientConfig_claim (testConfig "vpn.example.com") "/etc/vpn/clients" statePathW 5
        (fun _ => "u-1") fsStoreW "alice" [("alice", cAliceW)]
        (writeFileOk fsStoreW statePathW
          (marshalPretty (encodeClientMap (normalizeClients "/etc/vpn/clients"
            [("alice", cAliceW)]))))
        rfl).2.1 cAliceW rfl).1⟩

/-! ## Claim C9: InitState idempotence -/

/-- The manager's world for `InitState`: the client store as the state
file's decoded artifact (`none` is a missing file) and the contents of
the TLS certificate and key files. -/
structure World where
  store : Option (List (String × Client))
  tlsCert : Option String
  tlsKey : Option String

/-- `ensureTLSMaterialLocked` (manager.go:471-489): when both TLS files
exist nothing happens; otherwise a self-signed pair (contents `certPem`
and `keyPem`) is generated into the two paths.  Also returns whether
generation ran. -/
def ensureTLSMaterialLocked (certPem keyPem : String) (w : World) : World × Bool :=
  if w.tlsCert.isSome && w.tlsKey.isSome then (w, false)
  else ({w with tlsCert := some certPem, tlsKey := some keyPem}, true)

/-- `loadClientsLocked` at the store-artifact level: heal the decoded
records; a map the heal loop changed is re-saved at once
(manager.go:384-388), and `saveClientsLocked` persists its
normalization. -/
def loadClientsW (clientsDir : String) (now : Int) (uuids : Nat → String)
    (w : World) : List (String × Client) × World :=
  match w.store with
  | none => ([], w)
  | some m =>
    let r := healEntries clientsDir now uuids 0 m
    if r.2 then (r.1, {w with store := some (normalizeClients clientsDir r.1)})
    else (r.1, w)

/-- One record of the backfill loop of `rewriteServerConfigLocked`
(manager.go:415-427): blank config path from the map key, blank address
from the UUID. -/
def rewriteFix (clientsDir k : String) (c : Client) : Client × Bool :=
  let c1 := if goTrimSpace c.configPath = "" then
      {c with configPath := goFilepathJoin clientsDir (k ++ ".json")} else c
  let c2 := if goTrimSpace c1.address = "" then {c1 with address := c1.uuid} else c1
  (c2, decide (goTrimSpace c.configPath = "") || decide (goTrimSpace c.address = ""))

/-- The backfill loop of `rewriteServerConfigLocked` over all entries. -/
def rewriteEntries (clientsDir : String) :
    List (String × Client) → List (String × Client) × Bool
  | [] => ([], false)
  | (k, c) :: rest =>
    let r := rewriteFix clientsDir k c
    let r2 := rewriteEntries clientsDir rest
    ((k, r.1) :: r2.1, r.2 || r2.2)

/-- `rewriteServerConfigLocked`'s effect on the store: when the backfill
loop changed a record the fixed map is re-saved (manager.go:446-450);
the server and client documents it writes are outside the store. -/
def rewriteServerConfigW (clientsDir : String) (m : List (String × Client))
    (w : World) : World :=
  let r := rewriteEntries clientsDir m
  if r.2 then {w with store := some (normalizeClients clientsDir r.1)} else w

/-- `createClientLocked` (manager.go:293-332) at the artifact level:
allocate an id, build the record with a fresh secret identity
(`freshUuid`), insert it, save the map, and rewrite the server and
client documents. -/
def createClientW (clientsDir name : String) (clients : List (String × Client))
    (now : Int) (freshUuid : String) (w : World) : World :=
  let id := allocateClientIDLocked name clients now
  let nm := if goTrimSpace name = "" then id else goTrimSpace name
  let c : Client := ⟨id, nm, freshUuid, freshUuid,
    goFilepathJoin clientsDir (id ++ ".json"), now⟩
  let m2 := assocInsert clients id c
  rewriteServerConfigW clientsDir m2
    {w with store := some (normalizeClients clientsDir m2)}

/-- `InitState` (manager.go:83-125) at the artifact level (directory
creation and chmods are not represented): ensure TLS material, load the
store, bootstrap `default-client` exactly when the loaded map is empty
(reloading afterwards), and rewrite the server and client documents.
Returns the world, whether TLS material was generated, and whether the
default client was created. -/
def initStateW (clientsDir : String) (now : Int) (uuids : Nat → String)
    (freshUuid certPem keyPem : String) (w : World) : World × Bool × Bool :=
  let p := ensureTLSMaterialLocked certPem keyPem w
  let l := loadClientsW clientsDir now uuids p.1
  match l.1 with
  | [] =>
    let w3 := createClientW clientsDir "default-client" l.1 now freshUuid l.2
    let l2 := loadClientsW clientsDir now uuids w3
    (rewriteServerConfigW clientsDir l2.1 l2.2, p.2, true)
  | _ :: _ => (rewriteServerConfigW clientsDir l.1 l.2, p.2, false)

theorem ensureTLS_gen (certPem keyPem : String) (w : World) :
    (ensureTLSMaterialLocked certPem keyPem w).2 =
      !(w.tlsCert.isSome && w.tlsKey.isSome) := by
  unfold ensureTLSMaterialLocked
  by_cases h : (w.tlsCert.isSome && w.tlsKey.isSome) = true
  · rw [if_pos h, h]
    rfl
  · rw [if_neg h]
    cases hb : (w.tlsCert.isSome && w.tlsKey.isSome)
    · rfl
    · exact absurd hb h

theorem ensureTLS_noop (certPem keyPem : String) (w : World)
    (h1 : w.tlsCert.isSome = true) (h2 : w.tlsKey.isSome = true) :
    ensureTLSMaterialLocked certPem keyPem w = (w, false) := by
  unfold ensureTLSMaterialLocked
  rw [if_pos]
  rw [h1, h2]
  rfl

theorem ensureTLS_post (certPem keyPem : String) (w : World) :
    (ensureTLSMaterialLocked certPem keyPem w).1.tlsCert.isSome = true ∧
    (ensureTLSMaterialLocked certPem keyPem w).1.tlsKey.isSome = true := by
  unfold ensureTLSMaterialLocked
  by_cases h : (w.tlsCert.isSome && w.tlsKey.isSome) = true
  · rw [if_pos h]
    exact ⟨(Bool.and_eq_true _ _ |>.mp h).1, (Bool.and_eq_true _ _ |>.mp h).2⟩
  · rw [if_neg h]
    exact ⟨rfl, rfl⟩

theorem ensureTLS_store (certPem keyPem : String) (w : World) :
    (ensureTLSMaterialLocked certPem keyPem w).1.store = w.store := by
  unfold ensureTLSMaterialLocked
  by_cases h : (w.tlsCert.isSome && w.tlsKey.isSome) = true
  · rw [if_pos h]
  · rw [if_neg h]

theorem loadClientsW_tls (d : String) (n : Int) (u : Nat → String) (w : World) :
    (loadClientsW d n u w).2.tlsCert = w.tlsCert ∧
    (loadClientsW d n u w).2.tlsKey = w.tlsKey := by
  cases hs : w.store with
  | none =>
    simp only [loadClientsW, hs]
    refine ⟨?_, ?_⟩ <;> trivial
  | some m =>
    simp only [loadClientsW, hs]
    by_cases hb : (healEntries d n u 0 m).2 = true
    · rw [if_pos hb]
      refine ⟨?_, ?_⟩ <;> trivial
    · rw [if_neg hb]
      refine ⟨?_, ?_⟩ <;> trivial

theorem rewriteServerConfigW_tls (d : String) (m : List (String × Client)) (w : World) :
    (rewriteServerConfigW d m w).tlsCert = w.tlsCert ∧
    (rewriteServerConfigW d m w).tlsKey = w.tlsKey := by
  simp only [rewriteServerConfigW]
  by_cases hb : (rewriteEntries d m).2 = true
  · rw [if_pos hb]
    refine ⟨?_, ?_⟩ <;> trivial
  · rw [if_neg hb]
    refine ⟨?_, ?_⟩ <;> trivial

theorem createClientW_tls (d nm : String) (cs : List (String × Client)) (n : Int)
    (fu : String) (w : World) :
    (createClientW d nm cs n fu w).tlsCert = w.tlsCert ∧
    (createClientW d nm cs n fu w).tlsKey = w.tlsKey := by
  unfold createClientW
  exact rewriteServerConfigW_tls _ _ _

theorem healEntries_ne_nil (d : String) (n : Int) (u : Nat → String) (i : Nat)
    (m : List (String × Client)) (h : m ≠ []) :
    (healEntries d n u i m).1 ≠ [] := by
  cases m with
  | nil => exact absurd rfl h
  | cons kv rest =>
    cases kv
    exact List.cons_ne_nil _ _

theorem rewriteEntries_ne_nil (d : String) (m : List (String × Client)) (h : m ≠ []) :
    (rewriteEntries d m).1 ≠ [] := by
  cases m with
  | nil => exact absurd rfl h
  | cons kv rest =>
    cases kv
    exact List.cons_ne_nil _ _

theorem normalizeClients_ne_nil (d : String) (m : List (String × Client)) (h : m ≠ []) :
    normalizeClients d m ≠ [] := by
  cases m with
  | nil => exact absurd rfl h
  | cons kv rest => exact List.cons_ne_nil _ _

theorem assocInsert_ne_nil (m : List (String × Client)) (k : String) (v : Client) :
    assocInsert m k v ≠ [] := by
  cases m with
  | nil => exact List.cons_ne_nil _ _
  | cons kv rest =>
    cases kv with
    | mk k2 v2 =>
      unfold assocInsert
      by_cases h : k2 = k
      · rw [if_pos h]
        exact List.cons_ne_nil _ _
      · rw [if_neg h]
        exact List.cons_ne_nil _ _

theorem rewriteServerConfigW_store_ne (d : String) (m : List (String × Client))
    (w : World) (s0 : List (String × Client)) (h0 : w.store = some s0)
    (hs0 : s0 ≠ []) (hm : m ≠ []) :
    ∃ s, (rewriteServerConfigW d m w).store = some s ∧ s ≠ [] := by
  simp only [rewriteServerConfigW]
  by_cases hb : (rewriteEntries d m).2 = true
  · rw [if_pos hb]
    exact ⟨_, rfl, normalizeClients_ne_nil _ _ (rewriteEntries_ne_nil _ _ hm)⟩
  · rw [if_neg hb]
    exact ⟨s0, h0, hs0⟩

theorem loadClientsW_ne (d : String) (n : Int) (u : Nat → String) (w : World)
    (s : List (String × Client)) (h : w.store = some s) (hs : s ≠ []) :
    (loadClientsW d n u w).1 ≠ [] ∧
    ∃ s2, (loadClientsW d n u w).2.store = some s2 ∧ s2 ≠ [] := by
  simp only [loadClientsW, h]
  by_cases hb : (healEntries d n u 0 s).2 = true
  · rw [if_pos hb]
    exact ⟨healEntries_ne_nil _ _ _ _ _ hs,
      _, rfl, normalizeClients_ne_nil _ _ (healEntries_ne_nil _ _ _ _ _ hs)⟩
  · rw [if_neg hb]
    exact ⟨healEntries_ne_nil _ _ _ _ _ hs, s, h, hs⟩

theorem loadClientsW_ne_of_out (d : String) (n : Int) (u : Nat → String) (w : World)
    (h : (loadClientsW d n u w).1 ≠ []) :
    ∃ s2, (loadClientsW d n u w).2.store = some s2 ∧ s2 ≠ [] := by
  cases hs : w.store with
  | none =>
    exfalso
    apply h
    simp only [loadClientsW, hs]
  | some m =>
    cases m with
    | nil =>
      exfalso
      apply h
      simp only [loadClientsW, hs]
      rfl
    | cons kv rest =>
      exact (loadClientsW_ne d n u w _ hs (List.cons_ne_nil _ _)).2

theorem createClientW_store_ne (d nm : String) (cs : List (String × Client)) (n : Int)
    (fu : String) (w : World) :
    ∃ s, (createClientW d nm cs n fu w).store = some s ∧ s ≠ [] := by
  simp only [createClientW]
  exact rewriteServerConfigW_store_ne _ _ _ _ rfl
    (normalizeClients_ne_nil _ _ (assocInsert_ne_nil _ _ _))
    (assocInsert_ne_nil _ _ _)

theorem initStateW_post (d : String) (n : Int) (u : Nat → String)
    (fu cp kp : String) (w : World) :
    (∃ m, ((initStateW d n u fu cp kp w).1).store = some m ∧ m ≠ []) ∧
    ((initStateW d n u fu cp kp w).1).tlsCert.isSome = true ∧
    ((initStateW d n u fu cp kp w).1).tlsKey.isSome = true := by
  cases hl : (loadClientsW d n u (ensureTLSMaterialLocked cp kp w).1).1 with
  | nil =>
    simp only [initStateW, hl]
    obtain ⟨s3, h3, hs3⟩ := createClientW_store_ne d "default-client" []
      n fu (loadClientsW d n u (ensureTLSMaterialLocked cp kp w).1).2
    obtain ⟨hne, s4, h4, hs4⟩ := loadClientsW_ne d n u _ s3 h3 hs3
    refine ⟨rewriteServerConfigW_store_ne _ _ _ s4 h4 hs4 hne, ?_, ?_⟩
    · rw [(rewriteServerConfigW_tls _ _ _).1, (loadClientsW_tls _ _ _ _).1,
        (createClientW_tls _ _ _ _ _ _).1, (loadClientsW_tls _ _ _ _).1]
      exact (ensureTLS_post cp kp w).1
    · rw [(rewriteServerConfigW_tls _ _ _).2, (loadClientsW_tls _ _ _ _).2,
        (createClientW_tls _ _ _ _ _ _).2, (loadClientsW_tls _ _ _ _).2]
      exact (ensureTLS_post cp kp w).2
  | cons kv rest =>
    simp only [initStateW, hl]
    obtain ⟨s2, h2, hs2⟩ := loadClientsW_ne_of_out d n u
      (ensureTLSMaterialLocked cp kp w).1 (by rw [hl]; exact List.cons_ne_nil _ _)
    refine ⟨rewriteServerConfigW_store_ne _ _ _ s2 h2 hs2 (List.cons_ne_nil _ _), ?_, ?_⟩
    · rw [(rewriteServerConfigW_tls _ _ _).1, (loadClientsW_tls _ _ _ _).1]
      exact (ensureTLS_post cp kp w).1
    · rw [(rewriteServerConfigW_tls _ _ _).2, (loadClientsW_tls _ _ _ _).2]
      exact (ensureTLS_post cp kp w).2

/-- C9: `InitState` is idempotent: on any world, (1) TLS material is
generated exactly when the certificate or the key file is absent; (2)
the `default-client` bootstrap record is created exactly when the loaded
store is empty; and therefore (3) a second call — at any later time,
with any fresh identities and any candidate TLS contents — creates no
second default client, generates no TLS material, and leaves the
certificate and key files byte-for-byte as the first call left them. -/
theorem initState_claim (clientsDir : String) (now now2 : Int)
    (uuids uuids2 : Nat → String)
    (freshUuid certPem keyPem freshUuid2 certPem2 keyPem2 : String) (w : World) :
    (initStateW clientsDir now uuids freshUuid certPem keyPem w).2.1 =
      !(w.tlsCert.isSome && w.tlsKey.isSome) ∧
    ((initStateW clientsDir now uuids freshUuid certPem keyPem w).2.2 = true ↔
      (loadClientsW clientsDir now uuids
        (ensureTLSMaterialLocked certPem keyPem w).1).1 = []) ∧
    (initStateW clientsDir now2 uuids2 freshUuid2 certPem2 keyPem2
        (initStateW clientsDir now uuids freshUuid certPem keyPem w).1).2.2 = false ∧
    (initStateW clientsDir now2 uuids2 freshUuid2 certPem2 keyPem2
        (initStateW clientsDir now uuids freshUuid certPem keyPem w).1).2.1 = false ∧
    (initStateW clientsDir now2 uuids2 freshUuid2 certPem2 keyPem2
        (initStateW clientsDir now uuids freshUuid certPem keyPem w).1).1.tlsCert =
      (initStateW clientsDir now uuids freshUuid certPem keyPem w).1.tlsCert ∧
    (initStateW clientsDir now2 uuids2 freshUuid2 certPem2 keyPem2
        (initStateW clientsDir now uuids freshUuid certPem keyPem w).1).1.tlsKey =
      (initStateW clientsDir now uuids freshUuid certPem keyPem w).1.tlsKey := by
  obtain ⟨⟨m1, hm1, hmne⟩, hc, hk⟩ :=
    initStateW_post clientsDir now uuids freshUuid certPem keyPem w
  have hnoop := ensureTLS_noop certPem2 keyPem2 _ hc hk
  have hl' := (loadClientsW_ne clientsDir now2 uuids2 _ m1 hm1 hmne).1
  refine ⟨?_, ?_, ?_⟩
  · cases hl : (loadClientsW clientsDir now uuids
        (ensureTLSMaterialLocked certPem keyPem w).1).1 with
    | nil =>
      simp only [initStateW, hl]
      exact ensureTLS_gen _ _ _
    | cons kv rest =>
      simp only [initStateW, hl]
      exact ensureTLS_gen _ _ _
  · cases hl : (loadClientsW clientsDir now uuids
        (ensureTLSMaterialLocked certPem keyPem w).1).1 with
    | nil =>
      simp only [initStateW, hl]
    | cons kv rest =>
      simp only [initStateW, hl]
      simp
  · revert hnoop hl'
    generalize (initStateW clientsDir now uuids freshUuid certPem keyPem w).1 = w1
    intro hnoop hl'
    cases hl2 : (loadClientsW clientsDir now2 uuids2 w1).1 with
    | nil => exact absurd hl2 hl'
    | cons kv rest =>
      refine ⟨?_, ?_, ?_, ?_⟩
      · simp only [initStateW, hnoop, hl2]
      · simp only [initStateW, hnoop, hl2]
      · simp only [initStateW, hnoop, hl2]
        rw [(rewriteServerConfigW_tls _ _ _).1, (loadClientsW_tls _ _ _ _).1]
      · simp only [initStateW, hnoop, hl2]
        rw [(rewriteServerConfigW_tls _ _ _).2, (loadClientsW_tls _ _ _ _).2]
